import Mathlib

/-!
Konsole `TEPty`: pseudo terminal device

A shallow embedding of `src/konsole/TEPty.cpp` and the properties of its
pty life cycle and I/O engine.

Conventions of the embedding

* C `int` members are `Int`; descriptors use `-1` for "not open".
* A `(const char* s, int len)` pair is the list of the `len` bytes at `s`.
* System calls are answered by explicit oracles passed as arguments; what the
  kernel did is recorded in explicit records (`Kernel`, event lists).
* Loops whose termination depends on the kernel take a fuel argument and
  return `none` when it runs out.
-/

namespace TEPty

/-! ## Data model -/

/-- One `char` of the byte stream. -/
abbrev Byte := Nat

/-- The values of `errno` the code distinguishes, and all the others. -/
inductive Errno
  | EAGAIN
  | EINTR
  | other (code : Nat)
  deriving DecidableEq, Repr

/-- The result of one `write(2)`: a count of accepted bytes (return value
`n >= 0`) or `-1` with `errno`. -/
inductive WriteResult
  | written (n : Nat)
  | failed (e : Errno)
  deriving DecidableEq, Repr

/-- The answers of the kernel to `write(2)` on the master descriptor:
the result of write call number `i` when `len` bytes are offered. -/
abbrev WriteOracle := Nat → Nat → WriteResult

/-- What the kernel has seen on the master descriptor. -/
structure Kernel where
  /-- bytes accepted by `write(2)`, in order -/
  wire : List Byte
  /-- number of `write(2)` calls issued so far -/
  nWrites : Nat
  deriving DecidableEq, Repr

/-- Source `struct winsize`: four `unsigned short` fields. -/
structure WinSize where
  ws_row : Nat
  ws_col : Nat
  ws_xpixel : Nat
  ws_ypixel : Nat
  deriving DecidableEq, Repr

/-- Modelled from the spec: `TEPty::SendJob` is declared in `TEPty.h`, which is
not part of the sources at hand.  It is the spec's `PendingWrite`
(`buffer`, `offset`, `remaining`), with the member names `doSendJobs` uses. -/
structure SendJob where
  buffer : List Byte
  start : Int
  length : Int
  deriving DecidableEq, Repr

/-- Modelled from the spec: the constructor `SendJob(s, len)` (in `TEPty.h`)
creates a pending write of the whole buffer: a copy of the `len` bytes,
offset `0`, `len` bytes remaining. -/
def SendJob.new (s : List Byte) : SendJob :=
  { buffer := s, start := 0, length := s.length }

/-- The bytes `write(fd, job.buffer.data() + job.start, job.length)` offers. -/
def SendJob.offered (job : SendJob) : List Byte :=
  (job.buffer.drop job.start.toNat).take job.length.toNat

/-- The part of a `QTimer` the code drives: running or stopped. -/
structure QTimer where
  active : Bool
  deriving DecidableEq, Repr

/-- The members of a `TEPty` object that `TEPty.cpp` reads and writes. -/
structure State where
  m_MasterFd : Int
  m_SlaveFd : Int
  m_bNeedGrantPty : Bool
  m_bAddUtmp : Bool
  m_bXonXoff : Bool
  m_WSize : WinSize
  ptynam : String
  ttynam : String
  m_strError : String
  pendingSendJobs : List SendJob
  /-- Source `NULL` is `none` -/
  pSendJobTimer : Option QTimer
  deriving DecidableEq, Repr

/-! ## The write path: `appendSendJob`, `doSendJobs`, `send_bytes` -/

/-- Source `TEPty::appendSendJob`: append the job, create the timer if there is none,
start it with a zero delay. -/
def appendSendJob (p : State) (s : List Byte) : State :=
  { p with
    pendingSendJobs := p.pendingSendJobs ++ [SendJob.new s]
    pSendJobTimer := some { active := true } }

/-- The end of `doSendJobs`: `if (pSendJobTimer) pSendJobTimer->stop();`. -/
def stopSendJobTimer (p : State) : State :=
  match p.pSendJobTimer with
  | none => p
  | some _ => { p with pSendJobTimer := some { active := false } }

/-- Source `TEPty::doSendJobs`: one tick of the drain timer.  Each unit of fuel pays
for one evaluation of the loop condition. -/
def doSendJobs (o : WriteOracle) : Nat → State × Kernel → Option (State × Kernel)
  | 0, _ => none
  | fuel + 1, (p, k) =>
    match p.pendingSendJobs with
    | [] => some (stopSendJobTimer p, k)
    | job :: rest =>
      match o k.nWrites job.length.toNat with
      | .failed e =>
        let k1 : Kernel := { k with nWrites := k.nWrites + 1 }
        if e ≠ .EAGAIN ∧ e ≠ .EINTR then
          some ({ p with pendingSendJobs := rest }, k1)
        else
          some (p, k1)
      | .written n =>
        let k1 : Kernel :=
          { wire := k.wire ++ job.offered.take n, nWrites := k.nWrites + 1 }
        let job1 : SendJob :=
          { job with start := job.start + n, length := job.length - n }
        if job1.length = 0 then
          doSendJobs o fuel ({ p with pendingSendJobs := rest }, k1)
        else
          doSendJobs o fuel ({ p with pendingSendJobs := job1 :: rest }, k1)

/-- The `do ... while (len > 0)` loop of `send_bytes`; `s` is what is left of
the buffer.  Each unit of fuel pays for one `write`. -/
def sendLoop (o : WriteOracle) : Nat → List Byte → State × Kernel → Option (State × Kernel)
  | 0, _, _ => none
  | fuel + 1, s, (p, k) =>
    match o k.nWrites s.length with
    | .failed e =>
      let k1 : Kernel := { k with nWrites := k.nWrites + 1 }
      if e = .EAGAIN ∨ e = .EINTR then
        some (appendSendJob p s, k1)
      else
        some (p, k1)
    | .written n =>
      let k1 : Kernel := { wire := k.wire ++ s.take n, nWrites := k.nWrites + 1 }
      if (s.length : Int) - n > 0 then
        sendLoop o fuel (s.drop n) (p, k1)
      else
        some (p, k1)

/-- Source `TEPty::send_bytes`. -/
def send_bytes (o : WriteOracle) (fuel : Nat) (s : List Byte) (pk : State × Kernel) :
    Option (State × Kernel) :=
  if pk.1.m_MasterFd < 0 then
    some pk
  else if !pk.1.pendingSendJobs.isEmpty then
    some (appendSendJob pk.1 s, pk.2)
  else
    sendLoop o fuel s pk

/-- What the owner of the object does with the write path. -/
inductive Op
  | send (s : List Byte)
  | tick
  deriving DecidableEq, Repr

/-- One operation: a `send_bytes` call or a timer tick. -/
def step (o : WriteOracle) (fuel : Nat) : Op → State × Kernel → Option (State × Kernel)
  | .send s, pk => send_bytes o fuel s pk
  | .tick, pk => doSendJobs o fuel pk

/-- A sequence of operations, each with the same fuel. -/
def run (o : WriteOracle) (fuel : Nat) : List Op → State × Kernel → Option (State × Kernel)
  | [], pk => some pk
  | op :: ops, pk =>
    match step o fuel op pk with
    | none => none
    | some pk1 => run o fuel ops pk1

/-- The concatenation of the sent buffers, in call order. -/
def sentBytes : List Op → List Byte
  | [] => []
  | .send s :: ops => s ++ sentBytes ops
  | .tick :: ops => sentBytes ops

/-- The bytes still waiting in the queue, in queue order. -/
def pendingBytes : List SendJob → List Byte
  | [] => []
  | job :: rest => job.offered ++ pendingBytes rest

/-- Every write accepts a non-empty part of what is offered, or fails with
`EAGAIN` or `EINTR`. -/
def WriteOracle.Good (o : WriteOracle) : Prop :=
  ∀ i len, match o i len with
    | .written n => 1 ≤ n ∧ n ≤ len
    | .failed e => e = .EAGAIN ∨ e = .EINTR

/-- A kernel that takes one byte per write and blocks when nothing is offered. -/
def oneByteOracle : WriteOracle :=
  fun _ len => if len = 0 then .failed .EAGAIN else .written 1

/-- A state as the constructor leaves it when `openPty` got descriptor `fd`
(`-1`: no pty). -/
def freshState (fd : Int) : State :=
  { m_MasterFd := fd, m_SlaveFd := -1, m_bNeedGrantPty := true, m_bAddUtmp := false,
    m_bXonXoff := false, m_WSize := ⟨0, 0, 0, 0⟩, ptynam := "", ttynam := "",
    m_strError := "", pendingSendJobs := [], pSendJobTimer := none }

/-- A queue entry whose window lies inside its buffer. -/
def SendJob.WF (j : SendJob) : Prop :=
  0 ≤ j.start ∧ 0 ≤ j.length ∧ j.start + j.length ≤ j.buffer.length

/-- The kernel's answers to the writes of one `send_bytes` call that starts as
write number `c` with buffer `s`: the writes accept `ns` bytes in turn, each
time leaving bytes to send, and the next write fails with `e`. -/
def acceptsThenFails (o : WriteOracle) : Nat → List Byte → List Nat → Errno → Bool
  | c, s, [], e => decide (o c s.length = .failed e)
  | c, s, n :: ns, e =>
    decide (o c s.length = .written n) && decide (n < s.length)
      && acceptsThenFails o (c + 1) (s.drop n) ns e

/-- A kernel that takes two bytes with the first write and then blocks. -/
def twoThenBlockOracle : WriteOracle :=
  fun i _ => if i = 0 then .written 2 else .failed .EAGAIN

/-- A kernel that blocks the first write and fails the later ones with a
genuine error (`EIO`). -/
def blockThenErrorOracle : WriteOracle :=
  fun i _ => if i = 0 then .failed .EAGAIN else .failed (.other 5)

/-! ## The read path: `DataReceived` -/

/-- The result of one `read(2)`: the bytes put into the buffer (return value
their number) or `-1` with `errno`. -/
inductive ReadResult
  | data (bs : List Byte)
  | failed (e : Errno)
  deriving DecidableEq, Repr

/-- The answer of the kernel to `read(2)` on the master descriptor when
`count` bytes are requested. -/
abbrev ReadOracle := Nat → ReadResult

/-- What `DataReceived` does to the outside, in order. -/
inductive ReadEvent
  /-- Source `read(fd, buf, count)` -/
  | read (fd : Int) (count : Nat)
  /-- Source `emit block_in(buf, len)`: the first `len` bytes of `buf` -/
  | block_in (block : List Byte) (len : Int)
  /-- Source `fputc(c, syslog_file)` -/
  | fputc (c : Byte)
  /-- Source `fflush(syslog_file)` -/
  | fflush
  deriving DecidableEq, Repr

/-- Source `TEPty::DataReceived(int, int& len)`: the value left in `len` and the
events.  `syslog_file` tells whether the global `syslog_file` is set. -/
def DataReceived (rd : ReadOracle) (syslog_file : Bool) (p : State) : Int × List ReadEvent :=
  match rd 4096 with
  | .failed _ => (-1, [.read p.m_MasterFd 4096])
  | .data buf =>
    let len : Int := buf.length
    (len,
      [.read p.m_MasterFd 4096, .block_in buf len]
        ++ (if syslog_file then buf.map .fputc ++ [.fflush] else []))

/-- The blocks handed to the subscriber. -/
def deliveredBlocks : List ReadEvent → List (List Byte × Int)
  | [] => []
  | .block_in b l :: es => (b, l) :: deliveredBlocks es
  | _ :: es => deliveredBlocks es

/-- The `read` requests issued. -/
def readRequests : List ReadEvent → List (Int × Nat)
  | [] => []
  | .read fd n :: es => (fd, n) :: readRequests es
  | _ :: es => readRequests es

/-! ## The window size: `setSize` -/

/-- The conversion `(unsigned short)x` of an `int`. -/
def toUShort (x : Int) : Nat := (x % 65536).toNat

/-- The `ioctl` calls of interest. -/
inductive Ioctl
  | TIOCSWINSZ (fd : Int) (ws : WinSize)
  deriving DecidableEq, Repr

/-- Source `TEPty::setSize`: the new state and the `ioctl` calls issued. -/
def setSize (lines columns : Int) (p : State) : State × List Ioctl :=
  let p1 : State :=
    { p with m_WSize := { p.m_WSize with ws_row := toUShort lines, ws_col := toUShort columns } }
  if p1.m_MasterFd < 0 then (p1, [])
  else (p1, [.TIOCSWINSZ p1.m_MasterFd p1.m_WSize])

/-! ## Opening the pty: `openPty` -/

/-- The preprocessor symbols that select code in `TEPty.cpp`. -/
structure Config where
  /-- Source `HAVE_OPENPTY`, after the `KDE_VERSION < 305` override -/
  HAVE_OPENPTY : Bool
  HAVE_GRANTPT : Bool
  HAVE_PTSNAME : Bool
  /-- Source `_AIX` -/
  AIX : Bool
  /-- Source `defined(_SCO_DS) || defined(__USLC__)` -/
  SCO : Bool
  HAVE_UTEMPTER : Bool
  USE_LOGIN : Bool
  deriving DecidableEq, Repr

/-- A pair `openpty(3)` hands out, with the names the system reports for it. -/
structure OpenptyPair where
  master_fd : Nat
  slave_fd : Nat
  /-- Source `ptsname(master_fd)`, or `ttyname(master_fd)` without `HAVE_PTSNAME` -/
  masterName : String
  /-- Source `ttyname(slave_fd)` -/
  slaveName : String
  deriving DecidableEq, Repr

/-- The answers of the system to the calls of `openPty`. -/
structure PtyEnv where
  /-- Source `openpty`: `none` when it fails -/
  openpty : Option OpenptyPair
  /-- Source `fchown(slave_fd, -1, gid) >= 0` -/
  fchownOk : Bool
  /-- Source `chmod(ttynam, S_IRUSR|S_IWUSR|S_IWGRP) >= 0` -/
  chmodOk : Bool
  /-- Source `open(path, O_RDWR)` as call number `i`: the new descriptor, `none` for `-1` -/
  openDev : Nat → String → Option Nat
  /-- Source `ptsname(fd)`: `none` for `NULL` -/
  ptsname : Int → Option String
  /-- Source `access(path, F_OK) >= 0` -/
  accessF : String → Bool
  /-- Source `access(path, R_OK|W_OK) == 0` -/
  accessRW : String → Bool
  geteuid : Nat
  /-- the value of `chownpty(fd, grant)` -/
  chownpty : Int → Bool → Bool
  /-- the directory `KGlobal::dirs()->findResourceDir("exe", "konsole")` -/
  exeDir : String

/-- Source `strncpy(dst, src, 50)`: at most 50 characters are copied. -/
def strncpy50 (src : String) : String := String.mk (src.data.take 50)

/-- The object during `openPty` together with what the call did to the process. -/
structure PtyRun where
  st : State
  /-- number of `open(2)` calls so far -/
  nOpen : Nat
  /-- the descriptors opened during the call and not closed since -/
  fds : List Nat
  /-- the descriptors `grantpt` was called on -/
  grantpt : List Int
  /-- the `chownpty(fd, grant)` calls -/
  helper : List (Int × Bool)
  /-- the lines written to `stderr` -/
  stderr : List String
  /-- Source `fcntl(m_MasterFd, F_SETFL, O_NDELAY)` was done -/
  nonblocking : Bool
  deriving DecidableEq, Repr

/-- Source `open(path, O_RDWR)`: the return value, and the descriptor noted as open. -/
def PtyRun.sysOpen (env : PtyEnv) (path : String) (r : PtyRun) : Int × PtyRun :=
  match env.openDev r.nOpen path with
  | some fd => ((fd : Int), { r with nOpen := r.nOpen + 1, fds := fd :: r.fds })
  | none => (-1, { r with nOpen := r.nOpen + 1 })

/-- Source `close(fd)`. -/
def PtyRun.sysClose (fd : Int) (r : PtyRun) : PtyRun :=
  { r with fds := r.fds.erase fd.toNat }

/-- The assignment `m_MasterFd = fd`. -/
def PtyRun.setMaster (fd : Int) (r : PtyRun) : PtyRun :=
  { r with st := { r.st with m_MasterFd := fd } }

/-- The two `sprintf`s or `strncpy`s that set the device names. -/
def PtyRun.setNames (pty tty : String) (r : PtyRun) : PtyRun :=
  { r with st := { r.st with ptynam := pty, ttynam := tty } }

/-- The first strategy, under `HAVE_OPENPTY`: `openpty`. -/
def tryOpenpty (env : PtyEnv) (r : PtyRun) : PtyRun :=
  if r.st.m_MasterFd < 0 then
    match env.openpty with
    | some pr =>
      let r1 : PtyRun :=
        { r with
          fds := pr.master_fd :: pr.slave_fd :: r.fds
          st := { r.st with
                  m_MasterFd := pr.master_fd
                  m_SlaveFd := pr.slave_fd
                  ptynam := strncpy50 pr.masterName
                  ttynam := strncpy50 pr.slaveName
                  m_bNeedGrantPty := false } }
      if !env.fchownOk then
        { r1 with
          st := { r1.st with m_bNeedGrantPty := true }
          stderr := r1.stderr ++ ["konsole: cannot chown " ++ r1.st.ttynam ++ ".", "Reason"] }
      else if !env.chmodOk then
        { r1 with
          st := { r1.st with m_bNeedGrantPty := true }
          stderr := r1.stderr ++ ["konsole: cannot chmod " ++ r1.st.ttynam ++ ".", "Reason"] }
      else r1
    | none => r
  else r

/-- The second strategy, under `HAVE_GRANTPT && HAVE_PTSNAME`: the Unix98
multiplexer. -/
def tryUnix98 (cfg : Config) (env : PtyEnv) (r : PtyRun) : PtyRun :=
  if r.st.m_MasterFd < 0 then
    let (fd, r1) := r.sysOpen env (if cfg.AIX then "/dev/ptc" else "/dev/ptmx")
    let r2 := r1.setMaster fd
    if fd ≥ 0 then
      match env.ptsname fd with
      | some name =>
        { r2 with
          st := { r2.st with ttynam := strncpy50 name, m_bNeedGrantPty := false }
          grantpt := r2.grantpt ++ [fd] }
      | none =>
        let r3 : PtyRun := { r2 with stderr := r2.stderr ++ ["ptsname"] }
        (r3.sysClose fd).setMaster (-1)
    else r2
  else r

/-- The loop of the third strategy (SCO OSr5 and UnixWare) from index `idx`
on, `n` candidates being left. -/
def scoLoop (env : PtyEnv) : Nat → Nat → PtyRun → PtyRun
  | 0, _, r => r
  | n + 1, idx, r =>
    let r1 := r.setNames ("/dev/ptyp" ++ toString idx) ("/dev/ttyp" ++ toString idx)
    if !env.accessF r1.st.ttynam then r1
    else
      let (fd, r2) := r1.sysOpen env r1.st.ptynam
      let r3 := r2.setMaster fd
      if fd ≥ 0 then
        if env.accessRW r3.st.ttynam then r3
        else scoLoop env n (idx + 1) ((r3.sysClose fd).setMaster (-1))
      else scoLoop env n (idx + 1) r3

/-- The third strategy, under `_SCO_DS` or `__USLC__`. -/
def trySco (env : PtyEnv) (r : PtyRun) : PtyRun :=
  if r.st.m_MasterFd < 0 then scoLoop env 256 0 r else r

/-- The inner loop of the last strategy: the candidates `/dev/pty<c3><c4>`
for the characters `c4` left. -/
def legacyInner (env : PtyEnv) (c3 : Char) : List Char → PtyRun → PtyRun
  | [], r => r
  | c4 :: cs, r =>
    let r1 := r.setNames ("/dev/pty" ++ String.mk [c3, c4]) ("/dev/tty" ++ String.mk [c3, c4])
    let (fd, r2) := r1.sysOpen env r1.st.ptynam
    let r3 := r2.setMaster fd
    if fd ≥ 0 then
      if env.geteuid = 0 || env.accessRW r3.st.ttynam then r3
      else legacyInner env c3 cs ((r3.sysClose fd).setMaster (-1))
    else legacyInner env c3 cs r3

/-- The outer loop of the last strategy, for the characters `c3` left. -/
def legacyOuter (env : PtyEnv) : List Char → PtyRun → PtyRun
  | [], r => r
  | c3 :: cs, r =>
    let r1 := legacyInner env c3 "0123456789abcdefghijklmnopqrstuvwxyz".data r
    if r1.st.m_MasterFd ≥ 0 then r1 else legacyOuter env cs r1

/-- The last strategy: the Linux device names. -/
def tryLegacy (env : PtyEnv) (r : PtyRun) : PtyRun :=
  if r.st.m_MasterFd < 0 then legacyOuter env "pqrstuvwxyzabcdefghijklmno".data r else r

/-- The message stored in `m_strError` when no pty can be opened. -/
def noPtyMessage : String := "Unable to open a suitable terminal device."

/-- The start of `openPty`: `m_bNeedGrantPty = true`, nothing done yet. -/
def PtyRun.start (p : State) : PtyRun :=
  { st := { p with m_bNeedGrantPty := true }, nOpen := 0, fds := [], grantpt := [],
    helper := [], stderr := [], nonblocking := false }

/-- The end of `openPty`, after the strategies: the error return, or the
grant through `chownpty` and the switch to non-blocking mode. -/
def openPtyFinish (env : PtyEnv) (r4 : PtyRun) : PtyRun :=
  if r4.st.m_MasterFd < 0 then
    { r4 with
      st := { r4.st with m_strError := noPtyMessage }
      stderr := r4.stderr ++ ["Can't open a pseudo teletype"] }
  else
    let r5 : PtyRun :=
      if r4.st.m_bNeedGrantPty then
        let r41 : PtyRun := { r4 with helper := r4.helper ++ [(r4.st.m_MasterFd, true)] }
        if !env.chownpty r4.st.m_MasterFd true then
          { r41 with
            stderr := r41.stderr ++
              ["konsole: chownpty failed for device " ++ r41.st.ptynam ++ "::" ++ r41.st.ttynam ++ ".",
               "       : This means the session can be eavesdroped.",
               "       : Make sure konsole_grantpty is installed in",
               "       : " ++ env.exeDir ++ " and setuid root."] }
        else r41
      else r4
    { r5 with nonblocking := true }

/-- Source `TEPty::openPty`. -/
def openPty (cfg : Config) (env : PtyEnv) (p : State) : PtyRun :=
  let r0 := PtyRun.start p
  let r1 := if cfg.HAVE_OPENPTY then tryOpenpty env r0 else r0
  let r2 := if cfg.HAVE_GRANTPT && cfg.HAVE_PTSNAME then tryUnix98 cfg env r1 else r1
  let r3 := if cfg.SCO then trySco env r2 else r2
  let r4 := tryLegacy env r3
  openPtyFinish env r4

/-- The descriptors the object holds in `m_MasterFd` and `m_SlaveFd`. -/
def heldFds (p : State) : List Nat :=
  (if 0 ≤ p.m_MasterFd then [p.m_MasterFd.toNat] else [])
    ++ (if 0 ≤ p.m_SlaveFd then [p.m_SlaveFd.toNat] else [])

/-- A Linux build: `openpty` is not used, Unix98 ptys are. -/
def linuxConfig : Config :=
  { HAVE_OPENPTY := false, HAVE_GRANTPT := true, HAVE_PTSNAME := true, AIX := false,
    SCO := false, HAVE_UTEMPTER := false, USE_LOGIN := false }

/-- A system where `/dev/ptmx` opens as descriptor 3 with subordinate
`/dev/pts/0`, and nothing else opens. -/
def ptmxEnv : PtyEnv :=
  { openpty := none, fchownOk := false, chmodOk := false,
    openDev := fun _ path => if path = "/dev/ptmx" then some 3 else none,
    ptsname := fun _ => some "/dev/pts/0",
    accessF := fun _ => false, accessRW := fun _ => false, geteuid := 1000,
    chownpty := fun _ _ => false, exeDir := "/usr/bin/" }

/-- A system where `/dev/ptmx` opens as descriptor 3 but has no subordinate
name, the legacy device `/dev/ptyp0` opens but its tty is not accessible, and
`/dev/ptyp1` opens and is accessible. -/
def legacyEnv : PtyEnv :=
  { openpty := none, fchownOk := false, chmodOk := false,
    openDev := fun _ path =>
      if path = "/dev/ptmx" ∨ path = "/dev/ptyp0" ∨ path = "/dev/ptyp1" then some 3 else none,
    ptsname := fun _ => none,
    accessF := fun _ => false,
    accessRW := fun path => path = "/dev/ttyp1",
    geteuid := 1000,
    chownpty := fun _ _ => true, exeDir := "/usr/bin/" }

/-- No descriptor opened by the call is open and forgotten: either there is no
master, no subordinate descriptor and nothing open, or there is a master and
the open descriptors are exactly the ones the object holds. -/
def PtyRun.Settled (r : PtyRun) : Prop :=
  (r.st.m_MasterFd < 0 ∧ r.st.m_SlaveFd < 0 ∧ r.fds = [])
    ∨ (0 ≤ r.st.m_MasterFd ∧ r.fds = heldFds r.st)

/-! ## The privileged helper: `chownpty` -/

/-- The value of `sa_handler`. -/
inductive SigHandler
  | SIG_DFL
  | SIG_IGN
  | handler (id : Nat)
  deriving DecidableEq, Repr

/-- Source `struct sigaction`: a signal disposition. -/
structure SigAction where
  sa_handler : SigHandler
  sa_mask : List Nat
  sa_flags : Int
  deriving DecidableEq, Repr

/-- The wait status `w` that `waitpid` stores, decoded. -/
inductive WaitStatus
  | exited (code : Nat)
  | signaled (sig : Nat)
  | stopped (sig : Nat)
  deriving DecidableEq, Repr

/-- The system's macro `WIFEXITED(w)`. -/
def WIFEXITED : WaitStatus → Bool
  | .exited _ => true
  | _ => false

/-- The system's macro `WEXITSTATUS(w)` (0 where the system leaves it open). -/
def WEXITSTATUS : WaitStatus → Nat
  | .exited code => code
  | _ => 0

/-- The result of one `waitpid(pid, &w, 0)`: the child was reaped (return value
`pid`, status `w`) or `-1` with `errno`. -/
inductive WaitResult
  | reaped (w : WaitStatus)
  | failed (e : Errno)
  deriving DecidableEq, Repr

/-- The result of `fork()`: `-1`, `0` in the child, the child's pid (`> 0`) in
the parent. -/
inductive ForkResult
  | failed
  | child
  | parent (pid : Nat)
  deriving DecidableEq, Repr

/-- The answers of the system to the calls of `chownpty`. -/
structure HelperEnv where
  fork : ForkResult
  /-- the result of `waitpid` call number `i` -/
  waitpid : Nat → WaitResult
  /-- in the child: `dup2(fd, PTY_FILENO) >= 0` -/
  dup2Ok : Bool
  /-- in the child: `execle` replaces the process image -/
  execOk : Bool

/-- How a process leaves `chownpty`. -/
inductive ChownEnd
  /-- Source `return value;` -/
  | returned (value : Int)
  /-- the child ends with `exit(code)` -/
  | childExit (code : Nat)
  /-- the child has become the helper, started with `flag` -/
  | childExec (helperName : String) (flag : String)
  deriving DecidableEq, Repr

/-- The process when it leaves `chownpty`. -/
structure ChownRun where
  /-- the disposition of `SIGCHLD` in force -/
  sigchld : SigAction
  /-- the dispositions of `SIGCHLD` installed by `sigaction`, in order -/
  installed : List SigAction
  /-- number of `waitpid` calls -/
  nWait : Nat
  outcome : ChownEnd
  deriving DecidableEq, Repr

/-- Source `PTY_FILENO`. -/
def PTY_FILENO : Int := 3

/-- Source `BASE_CHOWN`. -/
def BASE_CHOWN : String := "konsole_grantpty"

/-- The `retry:` loop of `chownpty`: `waitpid` is called again while it fails
with `EINTR`.  Gives the number of calls made and the last result; each unit
of fuel pays for one call. -/
def waitLoop (waitpid : Nat → WaitResult) : Nat → Nat → Option (Nat × WaitResult)
  | 0, _ => none
  | fuel + 1, i =>
    match waitpid i with
    | .failed .EINTR => waitLoop waitpid fuel (i + 1)
    | res => some (i + 1, res)

/-- The value `(rc != -1 && WIFEXITED(w) && WEXITSTATUS(w) == 0)`. -/
def helperSucceeded : WaitResult → Int
  | .reaped w => if WIFEXITED w && WEXITSTATUS w == 0 then 1 else 0
  | .failed _ => 0

/-- Source `chownpty(fd, grant)`, entered with `oldsa` as the disposition of
`SIGCHLD`. -/
def chownpty (env : HelperEnv) (fuel : Nat) (fd : Int) (grant : Bool) (oldsa : SigAction) :
    Option ChownRun :=
  let newsa : SigAction := { sa_handler := .SIG_DFL, sa_mask := [], sa_flags := 0 }
  match env.fork with
  | .failed =>
    some { sigchld := oldsa, installed := [newsa, oldsa], nWait := 0, outcome := .returned 0 }
  | .child =>
    some { sigchld := newsa, installed := [newsa], nWait := 0,
           outcome :=
            if fd ≠ PTY_FILENO && !env.dup2Ok then .childExit 1
            else if env.execOk then
              .childExec BASE_CHOWN (if grant then "--grant" else "--revoke")
            else .childExit 1 }
  | .parent _ =>
    match waitLoop env.waitpid fuel 0 with
    | none => none
    | some (n, res) =>
      some { sigchld := oldsa, installed := [newsa, oldsa], nWait := n,
             outcome := .returned (helperSucceeded res) }

/-- A system where `fork` succeeds, `waitpid` is interrupted twice and then
reports that the helper exited with code 0. -/
def interruptedHelperEnv : HelperEnv :=
  { fork := .parent 4711,
    waitpid := fun i => if i < 2 then .failed .EINTR else .reaped (.exited 0),
    dup2Ok := true, execOk := true }

/-- A disposition with a handler installed, as the process has for `SIGCHLD`. -/
def handlerAction : SigAction :=
  { sa_handler := .handler 1, sa_mask := [], sa_flags := 0 }

/-! ## Teardown: `commClose` -/

/-- What `commClose` does to the outside, in order. -/
inductive CloseEvent
  /-- Source `/usr/sbin/utempter` run with descriptor `cmdFd` and the arguments -/
  | utempter (cmdFd : Int) (args : List String)
  /-- Source `logout(line)` -/
  | logout (line : String)
  /-- Source `chownpty(fd, grant)` -/
  | chownpty (fd : Int) (grant : Bool)
  /-- the call of `KProcess::commClose()` -/
  | KProcess_commClose
  deriving DecidableEq, Repr

/-- The `tty_name` handed to `logout`: without a leading `/dev/`. -/
def stripDev (name : String) : String :=
  if name.data.take 5 = "/dev/".data then String.mk (name.data.drop 5) else name

/-- Source `TEPty::commClose`: the state after the call and the events.  `tty0` is
the answer of `ttyname(0)`.  `KProcess::commClose()` belongs to the base class
(kdelibs) and does not reach the members of `TEPty`. -/
def commClose (cfg : Config) (tty0 : Option String) (p : State) : State × List CloseEvent :=
  let accounting : List CloseEvent :=
    if cfg.HAVE_UTEMPTER then [.utempter p.m_MasterFd ["-d", p.ttynam]]
    else if cfg.USE_LOGIN then
      match tty0 with
      | some name => [.logout (stripDev name)]
      | none => []
    else []
  let revoke : List CloseEvent :=
    if p.m_bNeedGrantPty then [.chownpty p.m_MasterFd false] else []
  (p, accounting ++ revoke ++ [.KProcess_commClose])

/-- A build with utempter. -/
def utempterConfig : Config :=
  { HAVE_OPENPTY := false, HAVE_GRANTPT := true, HAVE_PTSNAME := true, AIX := false,
    SCO := false, HAVE_UTEMPTER := true, USE_LOGIN := false }

/-! ## The mode of the subordinate device: `setWriteable` -/

/-- The `st_mode` of every path of the file system. -/
abbrev FileModes := String → Nat

/-- The system's `S_IWGRP`: write permission for the group. -/
def S_IWGRP : Nat := 0o20

/-- The system's `S_IWOTH`: write permission for others. -/
def S_IWOTH : Nat := 0o2

/-- The operator `~x` where it meets a `mode_t`: the complement in 32 bits. -/
def bitNot32 (x : Nat) : Nat := 0xFFFFFFFF ^^^ x

/-- The system call `chmod(path, mode)` where it is permitted: the twelve
permission bits of the file become those of `mode`, the file type bits above
them stay.  `setWriteable` does not look at the result of the call. -/
def sysChmod (path : String) (mode : Nat) (fs : FileModes) : FileModes :=
  fun q => if q = path then ((fs q >>> 12) <<< 12) ||| (mode &&& 0o7777) else fs q

/-- Source `TEPty::deviceName`. -/
def deviceName (p : State) : String := p.ttynam

/-- Source `TEPty::setWriteable`: what the call makes of the file modes;
`stat` fills `sbuf.st_mode` with the mode of the device. -/
def setWriteable (writeable : Bool) (p : State) (fs : FileModes) : FileModes :=
  let st_mode := fs (deviceName p)
  if writeable then
    sysChmod (deviceName p) (st_mode ||| S_IWGRP) fs
  else
    sysChmod (deviceName p) (st_mode &&& bitNot32 (S_IWGRP ||| S_IWOTH)) fs

/-- An object whose subordinate device is `/dev/pts/0`. -/
def ptsState : State := { freshState 5 with ttynam := "/dev/pts/0" }

/-- A file system where `/dev/pts/0` is a character device with mode `0620`
and every other path has mode `0644`. -/
def ptsModes : FileModes := fun q => if q = "/dev/pts/0" then 0o20620 else 0o100644

/-- Every write fails (returns `-1`, whatever `errno`) or accepts at least one
and at most the offered number of bytes. -/
def WriteOracle.FailsOrAccepts (o : WriteOracle) : Prop :=
  ∀ i len, match o i len with
    | .written n => 1 ≤ n ∧ n ≤ len
    | .failed _ => True

/-- A kernel whose every `write` returns 0. -/
def zeroOracle : WriteOracle := fun _ _ => .written 0

/-! ## The descriptors of the child: `setupCommunication`, `startPgm` -/

/-- What an open descriptor refers to. -/
inductive FileRef
  /-- the master side of the pty -/
  | master
  /-- the subordinate device of the pty -/
  | slave
  /-- anything else the process has open -/
  | other (id : Nat)
  deriving DecidableEq, Repr

/-- The descriptor table of a process: what each descriptor is open on. -/
abbrev FdTable := Nat → Option FileRef

/-- The table with descriptor `fd` changed to `v`. -/
def FdTable.set (t : FdTable) (fd : Nat) (v : Option FileRef) : FdTable :=
  fun i => if i = fd then v else t i

/-- The system call `close(fd)`; a negative `fd` changes nothing. -/
def fdClose (fd : Int) (t : FdTable) : FdTable :=
  if fd < 0 then t else t.set fd.toNat none

/-- The system call `dup2(oldfd, newfd)` under the descriptor limit `limit`:
it fails, changing nothing, when `oldfd` is not open or `newfd` is not below
the limit; else `newfd` refers to what `oldfd` refers to. -/
def fdDup2 (limit : Nat) (oldfd : Int) (newfd : Nat) (t : FdTable) : FdTable :=
  if oldfd < 0 then t
  else
    match t oldfd.toNat with
    | none => t
    | some f => if limit ≤ newfd then t else t.set newfd (some f)

/-- The loop `for (i = ...; i < rlim_cur; i++) if (i != tt && i != m_MasterFd)
close(i);` from `i` on, `n` descriptors being left to visit. -/
def closeOthers (tt master : Int) : Nat → Nat → FdTable → FdTable
  | 0, _, t => t
  | n + 1, i, t =>
    closeOthers tt master n (i + 1)
      (if (i : Int) ≠ tt ∧ (i : Int) ≠ master then fdClose i t else t)

/-- The lowest descriptor below the limit that is not open. -/
def lowestFree (limit : Nat) (t : FdTable) : Option Nat :=
  (List.range limit).find? (fun i => (t i).isNone)

/-- The statement `close(open(ttynam, O_WRONLY, 0));`: when the `open`
succeeds it takes the lowest free descriptor, which is closed again; when it
fails, `close(-1)` does nothing. -/
def reopenTty (limit : Nat) (openOk : Bool) (t : FdTable) : FdTable :=
  match (if openOk then lowestFree limit t else none) with
  | some fd => fdClose fd (t.set fd (some .slave))
  | none => t

/-- Source `TEPty::setupCommunication`: the return value (1: the launch goes
on, 0: it is given up).  The members of `KProcess` it sets are left out. -/
def setupCommunication (p : State) : Int :=
  if p.m_MasterFd ≤ 0 then 0 else 1

/-- Source `TEPty::startPgm`: what the child does to its descriptor table,
with `limit` for `rlp.rlim_cur` and `tt` the descriptor `makePty` returned:
close all but `tt` and the master, `dup2` of `tt` onto 0, 1 and 2, close `tt`
if it is above 2, the reopening of the tty by name, close the master.  The
steps in between (signals, `setsid`, terminal attributes) leave the table
alone. -/
def startPgmFds (limit : Nat) (openOk : Bool) (tt : Int) (p : State) (t : FdTable) : FdTable :=
  let t1 := closeOthers tt p.m_MasterFd limit 0 t
  let t2 := fdDup2 limit tt 0 t1
  let t3 := fdDup2 limit tt 1 t2
  let t4 := fdDup2 limit tt 2 t3
  let t5 := if tt > 2 then fdClose tt t4 else t4
  let t6 := reopenTty limit openOk t5
  fdClose p.m_MasterFd t6

/-- The table of a process started without standard output, which then got
the pty master as descriptor 1 and the subordinate device as descriptor 5;
0 and 2 are the standard input and error it was started with. -/
def stdoutlessTable : FdTable :=
  fun i =>
    if i = 0 then some (.other 0)
    else if i = 1 then some .master
    else if i = 2 then some (.other 2)
    else if i = 5 then some .slave
    else none

/-- The table of a process started with the three standard descriptors, which
then got the pty master as descriptor 3, a pipe as 4 and the subordinate
device as descriptor 5. -/
def usualTable : FdTable :=
  fun i =>
    if i = 0 then some (.other 0)
    else if i = 1 then some (.other 1)
    else if i = 2 then some (.other 2)
    else if i = 3 then some .master
    else if i = 4 then some (.other 4)
    else if i = 5 then some .slave
    else none

/-! ## Theorems -/

/-! ### Queue entries -/

theorem SendJob.new_WF (s : List Byte) : (SendJob.new s).WF := by
  simp [SendJob.WF, SendJob.new]

theorem SendJob.new_offered (s : List Byte) : (SendJob.new s).offered = s := by
  simp [SendJob.offered, SendJob.new]

theorem SendJob.offered_length (j : SendJob) (h : j.WF) :
    j.offered.length = j.length.toNat := by
  obtain ⟨h1, h2, h3⟩ := h
  simp only [SendJob.offered, List.length_take, List.length_drop]
  omega

theorem SendJob.advance_offered (j : SendJob) (h : j.WF) (n : Nat)
    (hn : n ≤ j.length.toNat) :
    ({ j with start := j.start + n, length := j.length - n } : SendJob).offered
      = j.offered.drop n := by
  obtain ⟨h1, h2, h3⟩ := h
  have e1 : (j.start + (n : Int)).toNat = j.start.toNat + n := by omega
  have e2 : (j.length - (n : Int)).toNat = j.length.toNat - n := by omega
  simp only [SendJob.offered, e1, e2, List.drop_take, List.drop_drop]

theorem SendJob.advance_WF (j : SendJob) (h : j.WF) (n : Nat)
    (hn : n ≤ j.length.toNat) :
    ({ j with start := j.start + n, length := j.length - n } : SendJob).WF := by
  obtain ⟨h1, h2, h3⟩ := h
  refine ⟨?_, ?_, ?_⟩ <;> simp only <;> omega

theorem pendingBytes_append (q r : List SendJob) :
    pendingBytes (q ++ r) = pendingBytes q ++ pendingBytes r := by
  induction q with
  | nil => rfl
  | cons j q ih => simp [pendingBytes, ih]

/-! ### The drain tick and the immediate write keep the byte stream -/

theorem doSendJobs_stream (o : WriteOracle) (hgood : o.Good) :
    ∀ (fuel : Nat) (p : State) (k : Kernel),
      (∀ j ∈ p.pendingSendJobs, j.WF) →
      (pendingBytes p.pendingSendJobs).length < fuel →
      ∃ p1 k1, doSendJobs o fuel (p, k) = some (p1, k1)
        ∧ k1.wire ++ pendingBytes p1.pendingSendJobs
            = k.wire ++ pendingBytes p.pendingSendJobs
        ∧ (∀ j ∈ p1.pendingSendJobs, j.WF)
        ∧ (pendingBytes p1.pendingSendJobs).length
            ≤ (pendingBytes p.pendingSendJobs).length
        ∧ p1.m_MasterFd = p.m_MasterFd := by
  intro fuel
  induction fuel with
  | zero => intro p k _ h; omega
  | succ fuel ih =>
    intro p k hwf hlen
    rcases hq : p.pendingSendJobs with _ | ⟨job, rest⟩
    · refine ⟨stopSendJobTimer p, k, ?_, ?_, ?_, ?_, ?_⟩
      · simp [doSendJobs, hq]
      all_goals (unfold stopSendJobTimer; cases p.pSendJobTimer <;> simp [hq])
    · have hjob : job.WF := hwf job (by simp [hq])
      have hrest : ∀ j ∈ rest, j.WF := fun j hj => hwf j (by simp [hq, hj])
      have hoff := job.offered_length hjob
      have hg := hgood k.nWrites job.length.toNat
      rcases ho : o k.nWrites job.length.toNat with n | e
      · rw [ho] at hg
        obtain ⟨hn1, hn2⟩ : 1 ≤ n ∧ n ≤ job.length.toNat := hg
        have hadv := job.advance_offered hjob n hn2
        have hadvwf := job.advance_WF hjob n hn2
        rw [hq, pendingBytes, List.length_append] at hlen
        by_cases hz : job.length - (n : Int) = 0
        · have hn3 : n = job.length.toNat := by omega
          have hlen1 : (pendingBytes rest).length < fuel := by omega
          obtain ⟨p1, k1, h1, h2, h3, h4, h5⟩ :=
            ih { p with pendingSendJobs := rest }
              { wire := k.wire ++ job.offered.take n, nWrites := k.nWrites + 1 } hrest hlen1
          refine ⟨p1, k1, ?_, ?_, h3, ?_, h5⟩
          · simp only [doSendJobs, hq, ho, hz, if_true]
            exact h1
          · rw [h2]
            have : job.offered.take n = job.offered := by
              apply List.take_of_length_le; omega
            simp [pendingBytes, this]
          · simp only [pendingBytes, List.length_append]
            simp only at h4
            omega
        · have hlen1 : (pendingBytes
              (({ job with start := job.start + n, length := job.length - n } : SendJob)
                :: rest)).length < fuel := by
            simp only [pendingBytes, List.length_append, hadv, List.length_drop]
            omega
          obtain ⟨p1, k1, h1, h2, h3, h4, h5⟩ :=
            ih { p with pendingSendJobs :=
                  ({ job with start := job.start + n, length := job.length - n } : SendJob)
                    :: rest }
              { wire := k.wire ++ job.offered.take n, nWrites := k.nWrites + 1 }
              (by
                intro j hj
                simp only [List.mem_cons] at hj
                rcases hj with rfl | hj
                · exact hadvwf
                · exact hrest j hj)
              hlen1
          refine ⟨p1, k1, ?_, ?_, h3, ?_, h5⟩
          · simp only [doSendJobs, hq, ho, hz, if_false]
            exact h1
          · rw [h2]
            simp only [pendingBytes, hadv, List.append_assoc]
            rw [← List.append_assoc (job.offered.take n), List.take_append_drop]
          · simp only [pendingBytes, List.length_append, hadv, List.length_drop] at h4 ⊢
            omega
      · rw [ho] at hg
        have hg1 : e = .EAGAIN ∨ e = .EINTR := hg
        refine ⟨p, { k with nWrites := k.nWrites + 1 }, ?_, ?_, ?_, ?_, rfl⟩
        · have : ¬ (e ≠ .EAGAIN ∧ e ≠ .EINTR) := by
            rcases hg1 with h | h <;> simp [h]
          simp only [doSendJobs, hq, ho, this, if_false]
        · simp [hq]
        · rw [hq]; intro j hj; exact hwf j (by rw [hq]; exact hj)
        · simp [hq]

theorem sendLoop_stream (o : WriteOracle) (hgood : o.Good) :
    ∀ (fuel : Nat) (s : List Byte) (p : State) (k : Kernel),
      p.pendingSendJobs = [] →
      s.length < fuel →
      ∃ p1 k1, sendLoop o fuel s (p, k) = some (p1, k1)
        ∧ k1.wire ++ pendingBytes p1.pendingSendJobs = k.wire ++ s
        ∧ (∀ j ∈ p1.pendingSendJobs, j.WF)
        ∧ (pendingBytes p1.pendingSendJobs).length ≤ s.length
        ∧ p1.m_MasterFd = p.m_MasterFd := by
  intro fuel
  induction fuel with
  | zero => intro s p k _ h; omega
  | succ fuel ih =>
    intro s p k hq hlen
    have hg := hgood k.nWrites s.length
    rcases ho : o k.nWrites s.length with n | e
    · rw [ho] at hg
      obtain ⟨hn1, hn2⟩ : 1 ≤ n ∧ n ≤ s.length := hg
      by_cases hz : (s.length : Int) - n > 0
      · obtain ⟨p1, k1, h1, h2, h3, h4, h5⟩ :=
          ih (s.drop n) p { wire := k.wire ++ s.take n, nWrites := k.nWrites + 1 } hq
            (by simp only [List.length_drop]; omega)
        refine ⟨p1, k1, ?_, ?_, h3, ?_, h5⟩
        · simp only [sendLoop, ho, hz, if_true]
          exact h1
        · rw [h2]
          simp only [List.append_assoc, List.take_append_drop]
        · simp only [List.length_drop] at h4
          omega
      · refine ⟨p, { wire := k.wire ++ s.take n, nWrites := k.nWrites + 1 }, ?_, ?_, ?_, ?_, rfl⟩
        · simp only [sendLoop, ho, hz, if_false]
        · have : s.take n = s := by
            apply List.take_of_length_le; omega
          simp [hq, pendingBytes, this]
        · simp [hq]
        · simp [hq, pendingBytes]
    · rw [ho] at hg
      have hg1 : e = .EAGAIN ∨ e = .EINTR := hg
      refine ⟨appendSendJob p s, { k with nWrites := k.nWrites + 1 }, ?_, ?_, ?_, ?_, rfl⟩
      · simp only [sendLoop, ho, hg1, if_true]
      · simp [appendSendJob, hq, pendingBytes, SendJob.new_offered]
      · intro j hj
        simp only [appendSendJob, hq, List.nil_append, List.mem_singleton] at hj
        rw [hj]
        exact SendJob.new_WF s
      · simp [appendSendJob, hq, pendingBytes, SendJob.new_offered]

theorem send_bytes_stream (o : WriteOracle) (hgood : o.Good)
    (fuel : Nat) (s : List Byte) (p : State) (k : Kernel)
    (hfd : 0 ≤ p.m_MasterFd) (hwf : ∀ j ∈ p.pendingSendJobs, j.WF)
    (hlen : s.length < fuel) :
    ∃ p1 k1, send_bytes o fuel s (p, k) = some (p1, k1)
      ∧ k1.wire ++ pendingBytes p1.pendingSendJobs
          = k.wire ++ pendingBytes p.pendingSendJobs ++ s
      ∧ (∀ j ∈ p1.pendingSendJobs, j.WF)
      ∧ (pendingBytes p1.pendingSendJobs).length
          ≤ (pendingBytes p.pendingSendJobs).length + s.length
      ∧ p1.m_MasterFd = p.m_MasterFd := by
  have hfd1 : ¬ p.m_MasterFd < 0 := by omega
  rcases hq : p.pendingSendJobs with _ | ⟨job, rest⟩
  · obtain ⟨p1, k1, h1, h2, h3, h4, h5⟩ := sendLoop_stream o hgood fuel s p k hq hlen
    refine ⟨p1, k1, ?_, ?_, h3, ?_, h5⟩
    · simp only [send_bytes, hfd1, hq, if_false, List.isEmpty_nil, Bool.not_true]
      simpa using h1
    · simp [h2, pendingBytes]
    · simp only [pendingBytes, List.length_nil]; omega
  · refine ⟨appendSendJob p s, k, ?_, ?_, ?_, ?_, rfl⟩
    · simp [send_bytes, hfd1, hq]
    · simp [appendSendJob, hq, pendingBytes_append, pendingBytes, SendJob.new_offered]
    · intro j hj
      simp only [appendSendJob, List.mem_append, List.mem_singleton] at hj
      rcases hj with hj | hj
      · exact hwf j hj
      · rw [hj]; exact SendJob.new_WF s
    · simp only [appendSendJob, hq, pendingBytes_append, pendingBytes, SendJob.new_offered,
        List.length_append, List.append_nil]
      omega

theorem run_stream (o : WriteOracle) (hgood : o.Good) (fuel : Nat) :
    ∀ (ops : List Op) (p : State) (k : Kernel),
      0 ≤ p.m_MasterFd →
      (∀ j ∈ p.pendingSendJobs, j.WF) →
      (pendingBytes p.pendingSendJobs).length + (sentBytes ops).length < fuel →
      ∃ p1 k1, run o fuel ops (p, k) = some (p1, k1)
        ∧ k1.wire ++ pendingBytes p1.pendingSendJobs
            = k.wire ++ pendingBytes p.pendingSendJobs ++ sentBytes ops := by
  intro ops
  induction ops with
  | nil =>
    intro p k _ _ _
    exact ⟨p, k, rfl, by simp [sentBytes]⟩
  | cons op ops ih =>
    intro p k hfd hwf hlen
    cases op with
    | send s =>
      simp only [sentBytes, List.length_append] at hlen
      obtain ⟨p1, k1, h1, h2, h3, h4, h5⟩ :=
        send_bytes_stream o hgood fuel s p k hfd hwf (by omega)
      obtain ⟨p2, k2, g1, g2⟩ := ih p1 k1 (by omega) h3 (by omega)
      refine ⟨p2, k2, ?_, ?_⟩
      · simp only [run, step, h1]
        exact g1
      · rw [g2, h2]
        simp [sentBytes]
    | tick =>
      simp only [sentBytes] at hlen
      obtain ⟨p1, k1, h1, h2, h3, h4, h5⟩ :=
        doSendJobs_stream o hgood fuel p k hwf (by omega)
      obtain ⟨p2, k2, g1, g2⟩ := ih p1 k1 (by omega) h3 (by omega)
      refine ⟨p2, k2, ?_, ?_⟩
      · simp only [run, step, h1]
        exact g1
      · rw [g2, h2]
        simp [sentBytes]

theorem oneByteOracle_good : oneByteOracle.Good := by
  intro i len
  unfold oneByteOracle
  by_cases h : len = 0
  · simp [h]
  · simp only [h, if_false]
    omega

/-- C1 (as amended): while the master descriptor is open, for every sequence of
`send_bytes` calls and `doSendJobs` ticks, started with an empty queue and
nothing written, against a kernel whose writes each accept a non-empty part of
what is offered or fail with `EAGAIN`/`EINTR`: the sequence runs to its end
(given fuel beyond the number of bytes sent), the bytes accepted by the
writes are a beginning of the concatenation of the sent buffers in call
order, and they are that whole concatenation once the queue is empty. -/
theorem send_stream_in_order (o : WriteOracle) (hgood : o.Good)
    (p : State) (c : Nat) (ops : List Op) (fuel : Nat)
    (hfd : 0 ≤ p.m_MasterFd) (hq : p.pendingSendJobs = [])
    (hfuel : (sentBytes ops).length < fuel) :
    ∃ p1 k1, run o fuel ops (p, { wire := [], nWrites := c }) = some (p1, k1)
      ∧ k1.wire <+: sentBytes ops
      ∧ (p1.pendingSendJobs = [] → k1.wire = sentBytes ops) := by
  obtain ⟨p1, k1, h1, h2⟩ :=
    run_stream o hgood fuel ops p { wire := [], nWrites := c } hfd
      (by simp [hq]) (by simpa [hq, pendingBytes] using hfuel)
  simp only [hq, pendingBytes, List.nil_append, List.append_nil] at h2
  refine ⟨p1, k1, h1, ⟨pendingBytes p1.pendingSendJobs, h2⟩, ?_⟩
  intro hempty
  simpa [hempty, pendingBytes] using h2

theorem send_stream_in_order_witness :
    ∃ p1 k1, run oneByteOracle 10 [.send [1, 2, 3], .send [4], .tick]
        (freshState 5, { wire := [], nWrites := 0 }) = some (p1, k1)
      ∧ k1.wire <+: sentBytes [.send [1, 2, 3], .send [4], .tick]
      ∧ (p1.pendingSendJobs = [] →
          k1.wire = sentBytes [.send [1, 2, 3], .send [4], .tick]) :=
  send_stream_in_order oneByteOracle oneByteOracle_good (freshState 5) 0
    [.send [1, 2, 3], .send [4], .tick] 10 (by decide) (by rfl) (by decide)

/-- C1 (as stated) fails on a closed master descriptor (the object as the
constructor leaves it when no pty could be opened), with a kernel that would
take every byte offered: `send_bytes` returns at once, so the queue is empty
and nothing was written, yet a byte was sent. -/
theorem send_on_closed_descriptor_loses_bytes :
    oneByteOracle.Good
    ∧ ∃ p1 k1, run oneByteOracle 10 [.send [65]]
        (freshState (-1), { wire := [], nWrites := 0 }) = some (p1, k1)
      ∧ p1.pendingSendJobs = []
      ∧ k1.wire = []
      ∧ k1.wire ≠ sentBytes [.send [65]] :=
  ⟨oneByteOracle_good,
    freshState (-1), { wire := [], nWrites := 0 }, by decide, by decide, by decide, by decide⟩

/-! ### `send_bytes` enqueues instead of writing -/

theorem sendLoop_blocked (o : WriteOracle) (p : State) (e : Errno)
    (he : e = .EAGAIN ∨ e = .EINTR) :
    ∀ (ns : List Nat) (fuel : Nat) (s : List Byte) (k : Kernel),
      acceptsThenFails o k.nWrites s ns e = true →
      ns.length < fuel →
      sendLoop o fuel s (p, k)
        = some (appendSendJob p (s.drop ns.sum),
            { wire := k.wire ++ s.take ns.sum, nWrites := k.nWrites + ns.length + 1 }) := by
  intro ns
  induction ns with
  | nil =>
    intro fuel s k h hf
    obtain ⟨f, rfl⟩ : ∃ f, fuel = f + 1 := ⟨fuel - 1, by simp at hf; omega⟩
    simp only [acceptsThenFails, decide_eq_true_eq] at h
    simp [sendLoop, h, he]
  | cons n ns ih =>
    intro fuel s k h hf
    obtain ⟨f, rfl⟩ : ∃ f, fuel = f + 1 := ⟨fuel - 1, by omega⟩
    simp only [acceptsThenFails, Bool.and_eq_true, decide_eq_true_eq] at h
    obtain ⟨⟨h1, h2⟩, h3⟩ := h
    have hz : (s.length : Int) - n > 0 := by omega
    have hrec := ih f (s.drop n) { wire := k.wire ++ s.take n, nWrites := k.nWrites + 1 } h3
      (by simp only [List.length_cons] at hf; omega)
    simp only [sendLoop, h1, hz, if_true]
    rw [hrec]
    simp only [List.sum_cons, List.drop_drop, List.length_cons, List.append_assoc,
      ← List.take_add]
    congr 3
    omega

/-- C2: while the master descriptor is open, `send_bytes` with a non-empty
queue issues no write and appends the whole buffer as one entry at the tail;
with an empty queue, when the writes of the call have accepted `ns` bytes in
turn (`k = ns.sum` in total, each time leaving bytes to send) and the next
write fails with `EAGAIN` or `EINTR`, the call returns with exactly one entry
in the queue, holding the buffer without its first `k` bytes. -/
theorem send_bytes_enqueues (o : WriteOracle) (p : State) (k : Kernel) (s : List Byte)
    (hfd : 0 ≤ p.m_MasterFd) :
    (p.pendingSendJobs ≠ [] → ∀ fuel,
      send_bytes o fuel s (p, k)
        = some ({ p with
                  pendingSendJobs := p.pendingSendJobs ++ [SendJob.new s]
                  pSendJobTimer := some { active := true } }, k))
    ∧ (p.pendingSendJobs = [] → ∀ (ns : List Nat) (e : Errno),
        (e = .EAGAIN ∨ e = .EINTR) →
        acceptsThenFails o k.nWrites s ns e = true →
        ∀ fuel, ns.length < fuel →
        send_bytes o fuel s (p, k)
          = some ({ p with
                    pendingSendJobs := [SendJob.new (s.drop ns.sum)]
                    pSendJobTimer := some { active := true } },
                  { wire := k.wire ++ s.take ns.sum,
                    nWrites := k.nWrites + ns.length + 1 })) := by
  have hfd1 : ¬ p.m_MasterFd < 0 := by omega
  constructor
  · intro hq fuel
    have : p.pendingSendJobs.isEmpty = false := by
      cases h : p.pendingSendJobs with
      | nil => exact absurd h hq
      | cons a l => rfl
    simp [send_bytes, hfd1, this, appendSendJob]
  · intro hq ns e he hacc fuel hf
    have hloop := sendLoop_blocked o p e he ns fuel s k hacc hf
    simp only [send_bytes, hfd1, hq, if_false, List.isEmpty_nil, Bool.not_true]
    simp only [appendSendJob, hq, List.nil_append] at hloop
    simpa using hloop

theorem send_bytes_enqueues_witness :
    send_bytes oneByteOracle 0 [7, 8] (appendSendJob (freshState 5) [1], ⟨[], 1⟩)
        = some ({ freshState 5 with
                  pendingSendJobs := [SendJob.new [1], SendJob.new [7, 8]]
                  pSendJobTimer := some { active := true } }, ⟨[], 1⟩)
    ∧ send_bytes twoThenBlockOracle 2 [1, 2, 3] (freshState 5, ⟨[], 0⟩)
        = some ({ freshState 5 with
                  pendingSendJobs := [SendJob.new [3]]
                  pSendJobTimer := some { active := true } }, ⟨[1, 2], 2⟩) :=
  ⟨(send_bytes_enqueues oneByteOracle (appendSendJob (freshState 5) [1]) ⟨[], 1⟩ [7, 8]
      (by decide)).1 (by decide) 0,
   (send_bytes_enqueues twoThenBlockOracle (freshState 5) ⟨[], 0⟩ [1, 2, 3]
      (by decide)).2 rfl [2] .EAGAIN (Or.inl rfl) (by decide) 2 (by decide)⟩

/-! ### `doSendJobs` when the write fails -/

/-- C3: in `doSendJobs`, when the write of the front entry fails with an
error other than `EAGAIN`/`EINTR`, the front entry is removed, the other
entries stay as they are and in order, and the tick ends with that one write;
when it fails with `EAGAIN` or `EINTR`, the queue is unchanged and the tick
ends with that one write.  Nothing else of the object changes and nothing
reaches the line. -/
theorem doSendJobs_failed_write (o : WriteOracle) (fuel : Nat) (p : State) (k : Kernel)
    (job : SendJob) (rest : List SendJob) (e : Errno)
    (hq : p.pendingSendJobs = job :: rest)
    (ho : o k.nWrites job.length.toNat = .failed e) :
    ((e ≠ .EAGAIN ∧ e ≠ .EINTR) →
      doSendJobs o (fuel + 1) (p, k)
        = some ({ p with pendingSendJobs := rest }, { k with nWrites := k.nWrites + 1 }))
    ∧ ((e = .EAGAIN ∨ e = .EINTR) →
      doSendJobs o (fuel + 1) (p, k) = some (p, { k with nWrites := k.nWrites + 1 })) := by
  constructor
  · intro he
    simp only [doSendJobs, hq, ho]
    rw [if_pos he]
  · intro he
    have : ¬ (e ≠ .EAGAIN ∧ e ≠ .EINTR) := by
      rcases he with h | h <;> simp [h]
    simp only [doSendJobs, hq, ho, this, if_false]

theorem doSendJobs_failed_write_witness :
    doSendJobs blockThenErrorOracle 1
        ({ freshState 5 with
            pendingSendJobs := [SendJob.new [1], SendJob.new [2, 3]]
            pSendJobTimer := some { active := true } }, ⟨[], 1⟩)
      = some ({ freshState 5 with
                pendingSendJobs := [SendJob.new [2, 3]]
                pSendJobTimer := some { active := true } }, ⟨[], 2⟩)
    ∧ doSendJobs blockThenErrorOracle 1
        ({ freshState 5 with
            pendingSendJobs := [SendJob.new [1], SendJob.new [2, 3]]
            pSendJobTimer := some { active := true } }, ⟨[], 0⟩)
      = some ({ freshState 5 with
                pendingSendJobs := [SendJob.new [1], SendJob.new [2, 3]]
                pSendJobTimer := some { active := true } }, ⟨[], 1⟩) :=
  ⟨(doSendJobs_failed_write blockThenErrorOracle 0
      { freshState 5 with
          pendingSendJobs := [SendJob.new [1], SendJob.new [2, 3]]
          pSendJobTimer := some { active := true } }
      ⟨[], 1⟩ (SendJob.new [1]) [SendJob.new [2, 3]] (.other 5) rfl rfl).1 (by decide),
   (doSendJobs_failed_write blockThenErrorOracle 0
      { freshState 5 with
          pendingSendJobs := [SendJob.new [1], SendJob.new [2, 3]]
          pSendJobTimer := some { active := true } }
      ⟨[], 0⟩ (SendJob.new [1]) [SendJob.new [2, 3]] .EAGAIN rfl rfl).2 (Or.inl rfl)⟩

/-! ### The drain timer -/

theorem doSendJobs_empty_queue (o : WriteOracle) (fuel : Nat) (p : State) (k : Kernel)
    (hq : p.pendingSendJobs = []) :
    doSendJobs o (fuel + 1) (p, k) = some (stopSendJobTimer p, k) := by
  simp only [doSendJobs, hq]

/-- C4 fails where the last entry is dropped: a buffer is queued because the
first write blocks; the tick's write fails with a genuine error, the entry is
removed and `doSendJobs` returns at once, so the queue is empty and the timer
is still running at the end of the tick. -/
theorem doSendJobs_drop_leaves_timer_running :
    run blockThenErrorOracle 2 [.send [65], .tick] (freshState 5, ⟨[], 0⟩)
      = some ({ freshState 5 with
                pendingSendJobs := []
                pSendJobTimer := some { active := true } }, ⟨[], 2⟩) := by
  decide

/-! ### `DataReceived` -/

theorem deliveredBlocks_fputc (bs : List Byte) (es : List ReadEvent) :
    deliveredBlocks (bs.map .fputc ++ es) = deliveredBlocks es := by
  induction bs with
  | nil => rfl
  | cons b bs ih => simpa [deliveredBlocks] using ih

theorem readRequests_fputc (bs : List Byte) (es : List ReadEvent) :
    readRequests (bs.map .fputc ++ es) = readRequests es := by
  induction bs with
  | nil => rfl
  | cons b bs ih => simpa [readRequests] using ih

/-- C5: `DataReceived` issues one `read` on the master descriptor, for 4096
bytes; it delivers a block to the subscriber if and only if the result of the
read (left in `len`) is not negative; a delivered block is the only one, is
exactly the bytes read and has the read result as its length (also when that
is 0); a negative result delivers nothing. -/
theorem DataReceived_delivers (rd : ReadOracle) (syslog_file : Bool) (p : State) :
    readRequests (DataReceived rd syslog_file p).2 = [(p.m_MasterFd, 4096)]
    ∧ (deliveredBlocks (DataReceived rd syslog_file p).2 ≠ []
        ↔ 0 ≤ (DataReceived rd syslog_file p).1)
    ∧ (∀ bs, rd 4096 = .data bs →
        (DataReceived rd syslog_file p).1 = bs.length
        ∧ deliveredBlocks (DataReceived rd syslog_file p).2 = [(bs, (bs.length : Int))])
    ∧ (∀ e, rd 4096 = .failed e →
        (DataReceived rd syslog_file p).1 < 0
        ∧ deliveredBlocks (DataReceived rd syslog_file p).2 = []) := by
  rcases h : rd 4096 with bs | e
  · have hd : deliveredBlocks (DataReceived rd syslog_file p).2 = [(bs, (bs.length : Int))] := by
      cases syslog_file
      · simp [DataReceived, h, deliveredBlocks]
      · simp only [DataReceived, h, if_true, List.cons_append, List.nil_append,
          deliveredBlocks, deliveredBlocks_fputc]
    have hr : readRequests (DataReceived rd syslog_file p).2 = [(p.m_MasterFd, 4096)] := by
      cases syslog_file
      · simp [DataReceived, h, readRequests]
      · simp only [DataReceived, h, if_true, List.cons_append, List.nil_append,
          readRequests, readRequests_fputc]
    have hl : (DataReceived rd syslog_file p).1 = bs.length := by
      simp [DataReceived, h]
    refine ⟨hr, ?_, ?_, ?_⟩
    · rw [hd, hl]
      simp
    · intro bs1 hbs
      cases hbs
      exact ⟨hl, hd⟩
    · intro e he
      cases he
  · refine ⟨?_, ?_, ?_, ?_⟩
    · simp [DataReceived, h, readRequests]
    · simp [DataReceived, h, deliveredBlocks]
    · intro bs hbs
      cases hbs
    · intro e1 _
      simp [DataReceived, h, deliveredBlocks]

/-! ### `setSize` -/

/-- C6 (as stated) fails for a size outside `unsigned short`: `setSize(70000, 80)`
stores 4464 rows, not 70000. -/
theorem setSize_truncates :
    ((setSize 70000 80 (freshState 5)).1.m_WSize.ws_row : Int) ≠ 70000
    ∧ (setSize 70000 80 (freshState 5)).1.m_WSize.ws_row = 4464 := by
  decide

/-- C6 (as amended): for every `(lines, columns)`, `setSize` stores the two
numbers converted to `unsigned short` (reduced modulo 65536; the numbers
themselves when they lie in `0..65535`), whether or not a pty is open; it
issues the window-size `ioctl` on the master descriptor, with the stored size,
if and only if the master descriptor is open (`m_MasterFd >= 0`); nothing
else of the object changes. -/
theorem setSize_records (lines columns : Int) (p : State) :
    (setSize lines columns p).1
        = { p with m_WSize := { p.m_WSize with ws_row := ((lines % 65536).toNat),
                                               ws_col := ((columns % 65536).toNat) } }
    ∧ (0 ≤ lines ∧ lines < 65536 →
        ((setSize lines columns p).1.m_WSize.ws_row : Int) = lines)
    ∧ (0 ≤ columns ∧ columns < 65536 →
        ((setSize lines columns p).1.m_WSize.ws_col : Int) = columns)
    ∧ (0 ≤ p.m_MasterFd →
        (setSize lines columns p).2
          = [.TIOCSWINSZ p.m_MasterFd (setSize lines columns p).1.m_WSize])
    ∧ (p.m_MasterFd < 0 → (setSize lines columns p).2 = []) := by
  have hst : (setSize lines columns p).1
      = { p with m_WSize := { p.m_WSize with ws_row := ((lines % 65536).toNat),
                                             ws_col := ((columns % 65536).toNat) } } := by
    unfold setSize toUShort
    by_cases h : p.m_MasterFd < 0 <;> simp [h]
  refine ⟨hst, ?_, ?_, ?_, ?_⟩
  · intro h
    rw [hst]
    simp only
    omega
  · intro h
    rw [hst]
    simp only
    omega
  · intro h
    have h1 : ¬ p.m_MasterFd < 0 := by omega
    unfold setSize toUShort
    simp [h1]
  · intro h
    unfold setSize
    simp [h]

/-! ### `openPty` leaves no descriptor behind -/

theorem legacyInner_settled (env : PtyEnv) (c3 : Char) :
    ∀ (cs : List Char) (r : PtyRun),
      r.st.m_MasterFd < 0 → r.st.m_SlaveFd < 0 → r.fds = [] →
      (legacyInner env c3 cs r).Settled
        ∧ (legacyInner env c3 cs r).st.m_strError = r.st.m_strError := by
  intro cs
  induction cs with
  | nil =>
    intro r h1 h2 h3
    exact ⟨Or.inl ⟨h1, h2, h3⟩, rfl⟩
  | cons c4 cs ih =>
    intro r h1 h2 h3
    rcases h : env.openDev r.nOpen ("/dev/pty" ++ String.mk [c3, c4]) with _ | fd
    · simp only [legacyInner, PtyRun.sysOpen, PtyRun.setNames, PtyRun.setMaster, h]
      simp only [ge_iff_le, Int.reduceNeg, Left.nonneg_neg_iff, Int.reduceLE, if_false]
      refine ⟨(ih _ ?_ ?_ ?_).1, (ih _ ?_ ?_ ?_).2⟩
      all_goals first | exact h2 | exact h3 | simp
    · simp only [legacyInner, PtyRun.sysOpen, PtyRun.setNames, PtyRun.setMaster,
        PtyRun.sysClose, h, ge_iff_le, Int.natCast_nonneg, if_true, Int.toNat_ofNat]
      split
      · refine ⟨Or.inr ⟨by simp, ?_⟩, rfl⟩
        have : ¬ (0 ≤ r.st.m_SlaveFd) := by omega
        simp [heldFds, h3, this]
      · refine ⟨(ih _ ?_ ?_ ?_).1, (ih _ ?_ ?_ ?_).2⟩
        all_goals first | exact h2 | simp [h3]

theorem legacyOuter_settled (env : PtyEnv) :
    ∀ (cs : List Char) (r : PtyRun),
      r.st.m_MasterFd < 0 → r.st.m_SlaveFd < 0 → r.fds = [] →
      (legacyOuter env cs r).Settled
        ∧ (legacyOuter env cs r).st.m_strError = r.st.m_strError := by
  intro cs
  induction cs with
  | nil =>
    intro r h1 h2 h3
    exact ⟨Or.inl ⟨h1, h2, h3⟩, rfl⟩
  | cons c3 cs ih =>
    intro r h1 h2 h3
    obtain ⟨g1, g2⟩ :=
      legacyInner_settled env c3 "0123456789abcdefghijklmnopqrstuvwxyz".data r h1 h2 h3
    simp only [legacyOuter]
    split
    · exact ⟨g1, g2⟩
    · rename_i hneg
      rcases g1 with ⟨k1, k2, k3⟩ | ⟨k1, _⟩
      · obtain ⟨q1, q2⟩ := ih _ k1 k2 k3
        exact ⟨q1, q2.trans g2⟩
      · exact absurd k1 hneg

theorem tryLegacy_settled (env : PtyEnv) (r : PtyRun) (h : r.Settled) :
    (tryLegacy env r).Settled ∧ (tryLegacy env r).st.m_strError = r.st.m_strError := by
  unfold tryLegacy
  split
  · rename_i hneg
    rcases h with ⟨k1, k2, k3⟩ | ⟨k1, _⟩
    · exact legacyOuter_settled env _ r k1 k2 k3
    · omega
  · exact ⟨h, rfl⟩

theorem scoLoop_settled (env : PtyEnv) :
    ∀ (n idx : Nat) (r : PtyRun),
      r.st.m_MasterFd < 0 → r.st.m_SlaveFd < 0 → r.fds = [] →
      (scoLoop env n idx r).Settled
        ∧ (scoLoop env n idx r).st.m_strError = r.st.m_strError := by
  intro n
  induction n with
  | zero =>
    intro idx r h1 h2 h3
    exact ⟨Or.inl ⟨h1, h2, h3⟩, rfl⟩
  | succ n ih =>
    intro idx r h1 h2 h3
    simp only [scoLoop, PtyRun.setNames]
    split
    · exact ⟨Or.inl ⟨h1, h2, h3⟩, rfl⟩
    · rcases h : env.openDev r.nOpen ("/dev/ptyp" ++ toString idx) with _ | fd
      · simp only [PtyRun.sysOpen, PtyRun.setMaster, h]
        simp only [ge_iff_le, Int.reduceNeg, Left.nonneg_neg_iff, Int.reduceLE, if_false]
        refine ⟨(ih _ _ ?_ ?_ ?_).1, (ih _ _ ?_ ?_ ?_).2⟩
        all_goals first | exact h2 | exact h3 | simp
      · simp only [PtyRun.sysOpen, PtyRun.setMaster, PtyRun.sysClose, h, ge_iff_le,
          Int.natCast_nonneg, if_true, Int.toNat_ofNat]
        split
        · refine ⟨Or.inr ⟨by simp, ?_⟩, rfl⟩
          have : ¬ (0 ≤ r.st.m_SlaveFd) := by omega
          simp [heldFds, h3, this]
        · refine ⟨(ih _ _ ?_ ?_ ?_).1, (ih _ _ ?_ ?_ ?_).2⟩
          all_goals first | exact h2 | simp [h3]

theorem trySco_settled (env : PtyEnv) (r : PtyRun) (h : r.Settled) :
    (trySco env r).Settled ∧ (trySco env r).st.m_strError = r.st.m_strError := by
  unfold trySco
  split
  · rename_i hneg
    rcases h with ⟨k1, k2, k3⟩ | ⟨k1, _⟩
    · exact scoLoop_settled env _ _ r k1 k2 k3
    · omega
  · exact ⟨h, rfl⟩

theorem tryUnix98_settled (cfg : Config) (env : PtyEnv) (r : PtyRun) (h : r.Settled) :
    (tryUnix98 cfg env r).Settled
      ∧ (tryUnix98 cfg env r).st.m_strError = r.st.m_strError := by
  unfold tryUnix98
  split
  · rename_i hneg
    rcases h with ⟨k1, k2, k3⟩ | ⟨k1, _⟩
    · have hs : ¬ (0 ≤ r.st.m_SlaveFd) := by omega
      rcases h : env.openDev r.nOpen (if cfg.AIX then "/dev/ptc" else "/dev/ptmx") with _ | fd
      · simp only [PtyRun.sysOpen, PtyRun.setMaster, h]
        simp only [ge_iff_le, Int.reduceNeg, Left.nonneg_neg_iff, Int.reduceLE, if_false]
        exact ⟨Or.inl ⟨by simp, k2, k3⟩, trivial⟩
      · simp only [PtyRun.sysOpen, PtyRun.setMaster, PtyRun.sysClose, h, ge_iff_le,
          Int.natCast_nonneg, if_true, Int.toNat_ofNat]
        split
        · refine ⟨Or.inr ⟨by simp, ?_⟩, rfl⟩
          simp [heldFds, k3, hs]
        · refine ⟨Or.inl ⟨by simp, k2, ?_⟩, rfl⟩
          simp [k3]
    · omega
  · exact ⟨h, rfl⟩

theorem tryOpenpty_settled (env : PtyEnv) (r : PtyRun) (h : r.Settled) :
    (tryOpenpty env r).Settled ∧ (tryOpenpty env r).st.m_strError = r.st.m_strError := by
  unfold tryOpenpty
  split
  · rename_i hneg
    rcases h with ⟨k1, k2, k3⟩ | ⟨k1, _⟩
    · rcases env.openpty with _ | pr
      · exact ⟨Or.inl ⟨k1, k2, k3⟩, rfl⟩
      · simp only
        split
        · refine ⟨Or.inr ⟨by simp, ?_⟩, rfl⟩
          simp [heldFds, k3]
        · split
          · refine ⟨Or.inr ⟨by simp, ?_⟩, rfl⟩
            simp [heldFds, k3]
          · refine ⟨Or.inr ⟨by simp, ?_⟩, rfl⟩
            simp [heldFds, k3]
    · omega
  · exact ⟨h, rfl⟩

theorem openPtyFinish_fields (env : PtyEnv) (r : PtyRun) :
    (openPtyFinish env r).fds = r.fds
    ∧ (openPtyFinish env r).st.m_MasterFd = r.st.m_MasterFd
    ∧ (openPtyFinish env r).st.m_SlaveFd = r.st.m_SlaveFd
    ∧ (r.st.m_MasterFd < 0 → (openPtyFinish env r).st.m_strError = noPtyMessage)
    ∧ (0 ≤ r.st.m_MasterFd → (openPtyFinish env r).st.m_strError = r.st.m_strError)
    ∧ (openPtyFinish env r).st.m_bNeedGrantPty = r.st.m_bNeedGrantPty
    ∧ (openPtyFinish env r).st.ttynam = r.st.ttynam
    ∧ (r.st.m_bNeedGrantPty = false → (openPtyFinish env r).helper = r.helper) := by
  unfold openPtyFinish
  by_cases hneg : r.st.m_MasterFd < 0
  · have hn : ¬ (0 ≤ r.st.m_MasterFd) := by omega
    simp [hneg, hn]
  · by_cases hg : r.st.m_bNeedGrantPty = true
    · by_cases hc : env.chownpty r.st.m_MasterFd true = true <;> simp [hneg, hg, hc]
    · simp [hneg, hg]

/-- C7: for every outcome of the platform strategies of `openPty` (whichever of
them are compiled in), called as the constructor does with no descriptor
held: every descriptor the call opened and that is still open is one the
object holds (`m_MasterFd`, and `m_SlaveFd` after `openpty`), so each
descriptor of a failed strategy or rejected candidate has been closed again;
and either the call ends with a master descriptor, which then is `>= 0`, and
the error message is untouched, or `m_MasterFd` is negative, nothing is left
open and the error message is set. -/
theorem openPty_master_or_error (cfg : Config) (env : PtyEnv) (p : State)
    (hm : p.m_MasterFd < 0) (hs : p.m_SlaveFd < 0) :
    (openPty cfg env p).fds = heldFds (openPty cfg env p).st
    ∧ ((0 ≤ (openPty cfg env p).st.m_MasterFd
          ∧ (openPty cfg env p).st.m_strError = p.m_strError)
        ∨ ((openPty cfg env p).st.m_MasterFd < 0
          ∧ (openPty cfg env p).fds = []
          ∧ (openPty cfg env p).st.m_strError = noPtyMessage)) := by
  unfold openPty
  simp only []
  have h0 : (PtyRun.start p).Settled := Or.inl ⟨hm, hs, rfl⟩
  have he0 : (PtyRun.start p).st.m_strError = p.m_strError := rfl
  generalize PtyRun.start p = r0 at h0 he0
  have h1 : (if cfg.HAVE_OPENPTY then tryOpenpty env r0 else r0).Settled
      ∧ (if cfg.HAVE_OPENPTY then tryOpenpty env r0 else r0).st.m_strError = p.m_strError := by
    split
    · exact ⟨(tryOpenpty_settled env r0 h0).1, (tryOpenpty_settled env r0 h0).2.trans he0⟩
    · exact ⟨h0, he0⟩
  generalize (if cfg.HAVE_OPENPTY then tryOpenpty env r0 else r0) = r1 at h1
  have h2 : (if (cfg.HAVE_GRANTPT && cfg.HAVE_PTSNAME) = true then tryUnix98 cfg env r1
        else r1).Settled
      ∧ (if (cfg.HAVE_GRANTPT && cfg.HAVE_PTSNAME) = true then tryUnix98 cfg env r1
          else r1).st.m_strError = p.m_strError := by
    split
    · exact ⟨(tryUnix98_settled cfg env r1 h1.1).1,
        (tryUnix98_settled cfg env r1 h1.1).2.trans h1.2⟩
    · exact h1
  generalize (if (cfg.HAVE_GRANTPT && cfg.HAVE_PTSNAME) = true then tryUnix98 cfg env r1
      else r1) = r2 at h2
  have h3 : (if cfg.SCO then trySco env r2 else r2).Settled
      ∧ (if cfg.SCO then trySco env r2 else r2).st.m_strError = p.m_strError := by
    split
    · exact ⟨(trySco_settled env r2 h2.1).1, (trySco_settled env r2 h2.1).2.trans h2.2⟩
    · exact h2
  generalize (if cfg.SCO then trySco env r2 else r2) = r3 at h3
  have h4 : (tryLegacy env r3).Settled ∧ (tryLegacy env r3).st.m_strError = p.m_strError :=
    ⟨(tryLegacy_settled env r3 h3.1).1, (tryLegacy_settled env r3 h3.1).2.trans h3.2⟩
  generalize tryLegacy env r3 = r4 at h4
  obtain ⟨hset, herr⟩ := h4
  obtain ⟨f1, f2, f3, f4, f5, _⟩ := openPtyFinish_fields env r4
  have hheld : heldFds (openPtyFinish env r4).st = heldFds r4.st := by
    simp only [heldFds, f2, f3]
  rw [hheld, f1, f2]
  rcases hset with ⟨k1, k2, k3⟩ | ⟨k1, k2⟩
  · have k2n : ¬ (0 ≤ r4.st.m_SlaveFd) := by omega
    have k1n : ¬ (0 ≤ r4.st.m_MasterFd) := by omega
    refine ⟨?_, Or.inr ⟨k1, k3, f4 k1⟩⟩
    simp [heldFds, k3, k1n, k2n]
  · exact ⟨k2, Or.inl ⟨k1, (f5 k1).trans herr⟩⟩

theorem openPty_master_or_error_witness :
    (openPty linuxConfig legacyEnv (freshState (-1))).fds
        = heldFds (openPty linuxConfig legacyEnv (freshState (-1))).st
    ∧ ((0 ≤ (openPty linuxConfig legacyEnv (freshState (-1))).st.m_MasterFd
          ∧ (openPty linuxConfig legacyEnv (freshState (-1))).st.m_strError
              = (freshState (-1)).m_strError)
        ∨ ((openPty linuxConfig legacyEnv (freshState (-1))).st.m_MasterFd < 0
          ∧ (openPty linuxConfig legacyEnv (freshState (-1))).fds = []
          ∧ (openPty linuxConfig legacyEnv (freshState (-1))).st.m_strError = noPtyMessage)) :=
  openPty_master_or_error linuxConfig legacyEnv (freshState (-1)) (by decide) (by decide)

/-! ### The Unix98 strategy and the needs-grant flag -/

theorem trySco_of_master (env : PtyEnv) (r : PtyRun) (h : 0 ≤ r.st.m_MasterFd) :
    trySco env r = r := by
  have : ¬ r.st.m_MasterFd < 0 := by omega
  simp [trySco, this]

theorem tryLegacy_of_master (env : PtyEnv) (r : PtyRun) (h : 0 ≤ r.st.m_MasterFd) :
    tryLegacy env r = r := by
  have : ¬ r.st.m_MasterFd < 0 := by omega
  simp [tryLegacy, this]

theorem tryUnix98_of_ptsname (cfg : Config) (env : PtyEnv) (r : PtyRun) (fd : Nat)
    (name : String) (hm : r.st.m_MasterFd < 0)
    (hopen : env.openDev r.nOpen (if cfg.AIX then "/dev/ptc" else "/dev/ptmx") = some fd)
    (hname : env.ptsname fd = some name) :
    (tryUnix98 cfg env r).st.m_MasterFd = fd
    ∧ (tryUnix98 cfg env r).st.ttynam = strncpy50 name
    ∧ (tryUnix98 cfg env r).st.m_bNeedGrantPty = false
    ∧ (tryUnix98 cfg env r).grantpt = r.grantpt ++ [(fd : Int)]
    ∧ (tryUnix98 cfg env r).helper = r.helper := by
  simp [tryUnix98, hm, PtyRun.sysOpen, PtyRun.setMaster, hopen, hname]

/-- C8 (as stated) fails: on a Linux build where `/dev/ptmx` opens as
descriptor 3 and `ptsname` gives `/dev/pts/0`, `openPty` gets its master from
the Unix98 strategy, calls `grantpt` on it and returns with the needs-grant
flag false. -/
theorem unix98_clears_needs_grant :
    (openPty linuxConfig ptmxEnv (freshState (-1))).st.m_MasterFd = 3
    ∧ (openPty linuxConfig ptmxEnv (freshState (-1))).grantpt = [3]
    ∧ (openPty linuxConfig ptmxEnv (freshState (-1))).st.m_bNeedGrantPty ≠ true := by
  decide

/-- C8 (as amended): when `openPty` obtains its master descriptor through the
Unix98 strategy (the strategy is compiled in, `openpty` is not used or fails,
the multiplexer device opens as `fd` and `ptsname` gives the subordinate's
path), `grantpt` is called on the master, the needs-grant flag is false on
return and the `chownpty` helper is not run. -/
theorem openPty_unix98_needs_no_grant (cfg : Config) (env : PtyEnv) (p : State)
    (fd : Nat) (name : String)
    (hcfg : cfg.HAVE_GRANTPT = true ∧ cfg.HAVE_PTSNAME = true)
    (hfirst : cfg.HAVE_OPENPTY = false ∨ env.openpty = none)
    (hm : p.m_MasterFd < 0)
    (hopen : env.openDev 0 (if cfg.AIX then "/dev/ptc" else "/dev/ptmx") = some fd)
    (hname : env.ptsname fd = some name) :
    (openPty cfg env p).st.m_MasterFd = fd
    ∧ (openPty cfg env p).st.ttynam = strncpy50 name
    ∧ (openPty cfg env p).grantpt = [(fd : Int)]
    ∧ (openPty cfg env p).st.m_bNeedGrantPty = false
    ∧ (openPty cfg env p).helper = [] := by
  have hr1 : (if cfg.HAVE_OPENPTY then tryOpenpty env (PtyRun.start p) else PtyRun.start p)
      = PtyRun.start p := by
    rcases hfirst with h | h
    · simp [h]
    · have hm1 : (PtyRun.start p).st.m_MasterFd < 0 := hm
      simp [tryOpenpty, hm1, h]
  obtain ⟨u1, u2, u3, u4, u5⟩ :=
    tryUnix98_of_ptsname cfg env (PtyRun.start p) fd name hm hopen hname
  have hpos : 0 ≤ (tryUnix98 cfg env (PtyRun.start p)).st.m_MasterFd := by
    rw [u1]; exact Int.natCast_nonneg fd
  obtain ⟨f1, f2, f3, f4, f5, f6, f7, f8⟩ :=
    openPtyFinish_fields env (tryUnix98 cfg env (PtyRun.start p))
  have hrun : openPty cfg env p = openPtyFinish env (tryUnix98 cfg env (PtyRun.start p)) := by
    unfold openPty
    simp only [hr1, hcfg.1, hcfg.2, Bool.and_self, if_true]
    rw [show (if cfg.SCO then trySco env (tryUnix98 cfg env (PtyRun.start p))
          else tryUnix98 cfg env (PtyRun.start p)) = tryUnix98 cfg env (PtyRun.start p) by
        split
        · exact trySco_of_master env _ hpos
        · rfl]
    rw [tryLegacy_of_master env _ hpos]
  have hgr : (openPtyFinish env (tryUnix98 cfg env (PtyRun.start p))).grantpt
      = (tryUnix98 cfg env (PtyRun.start p)).grantpt := by
    unfold openPtyFinish
    split
    · rfl
    · simp only
      split <;> (try split) <;> rfl
  rw [hrun]
  refine ⟨f2.trans u1, f7.trans u2, ?_, f6.trans u3, ?_⟩
  · rw [hgr, u4]; rfl
  · rw [f8 u3, u5]; rfl

theorem openPty_unix98_needs_no_grant_witness :
    (openPty linuxConfig ptmxEnv (freshState (-1))).st.m_MasterFd = ((3 : Nat) : Int)
    ∧ (openPty linuxConfig ptmxEnv (freshState (-1))).st.ttynam = strncpy50 "/dev/pts/0"
    ∧ (openPty linuxConfig ptmxEnv (freshState (-1))).grantpt = [((3 : Nat) : Int)]
    ∧ (openPty linuxConfig ptmxEnv (freshState (-1))).st.m_bNeedGrantPty = false
    ∧ (openPty linuxConfig ptmxEnv (freshState (-1))).helper = [] :=
  openPty_unix98_needs_no_grant linuxConfig ptmxEnv (freshState (-1)) 3 "/dev/pts/0"
    ⟨rfl, rfl⟩ (Or.inl rfl) (by decide) (by decide) rfl

/-! ### `chownpty` in the parent -/

theorem waitLoop_interrupted (waitpid : Nat → WaitResult) :
    ∀ (n i fuel : Nat),
      (∀ j, j < n → waitpid (i + j) = .failed .EINTR) →
      waitpid (i + n) ≠ .failed .EINTR →
      n < fuel →
      waitLoop waitpid fuel i = some (i + n + 1, waitpid (i + n)) := by
  intro n
  induction n with
  | zero =>
    intro i fuel _ hlast hfuel
    obtain ⟨f, rfl⟩ : ∃ f, fuel = f + 1 := ⟨fuel - 1, by omega⟩
    simp only [Nat.add_zero] at hlast ⊢
    unfold waitLoop
    split
    · rename_i heq
      exact absurd heq hlast
    · rfl
  | succ n ih =>
    intro i fuel hintr hlast hfuel
    obtain ⟨f, rfl⟩ : ∃ f, fuel = f + 1 := ⟨fuel - 1, by omega⟩
    have h0 : waitpid i = .failed .EINTR := by simpa using hintr 0 (by omega)
    have hrec := ih (i + 1) f
      (by intro j hj; have := hintr (j + 1) (by omega); rwa [show i + 1 + j = i + (j + 1) by omega])
      (by rwa [show i + 1 + n = i + (n + 1) by omega])
      (by omega)
    unfold waitLoop
    simp only [h0]
    rw [hrec, show i + 1 + n = i + (n + 1) by omega]

/-- C9: in the parent (also when `fork` fails), with `waitpid` interrupted
`n` times (`EINTR`) before it gives another result, `chownpty` calls `waitpid`
again exactly after each `EINTR`, returns (given fuel for `n + 1` calls) 1 or
0, and returns 1 if and only if `fork` succeeded, that last `waitpid` did not
fail and the helper exited normally with exit code 0; on return the
disposition of `SIGCHLD` is the one in force before the call, restored as the
last `sigaction`. -/
theorem chownpty_parent_result (env : HelperEnv) (fd : Int) (grant : Bool) (oldsa : SigAction)
    (n fuel : Nat)
    (hfork : env.fork ≠ .child)
    (hintr : ∀ i, i < n → env.waitpid i = .failed .EINTR)
    (hlast : env.waitpid n ≠ .failed .EINTR)
    (hfuel : n < fuel) :
    ∃ (run : ChownRun) (v : Int),
      chownpty env fuel fd grant oldsa = some run
      ∧ run.outcome = .returned v
      ∧ (v = 0 ∨ v = 1)
      ∧ (v = 1 ↔ (∃ pid, env.fork = .parent pid)
                  ∧ ∃ w, env.waitpid n = .reaped w ∧ WIFEXITED w = true ∧ WEXITSTATUS w = 0)
      ∧ run.sigchld = oldsa
      ∧ run.installed.getLast? = some oldsa
      ∧ ((∃ pid, env.fork = .parent pid) → run.nWait = n + 1) := by
  rcases hf : env.fork with _ | _ | pid
  · refine ⟨{ sigchld := oldsa, installed := [⟨.SIG_DFL, [], 0⟩, oldsa], nWait := 0,
              outcome := .returned 0 }, 0,
      by simp only [chownpty, hf], rfl, Or.inl rfl, ?_, rfl, rfl, ?_⟩
    · simp
    · simp
  · exact absurd hf hfork
  · have hloop := waitLoop_interrupted env.waitpid n 0 fuel
      (by intro j hj; simpa using hintr j hj) (by simpa using hlast) hfuel
    simp only [Nat.zero_add] at hloop
    refine ⟨{ sigchld := oldsa, installed := [⟨.SIG_DFL, [], 0⟩, oldsa], nWait := n + 1,
              outcome := .returned (helperSucceeded (env.waitpid n)) },
      helperSucceeded (env.waitpid n), by simp only [chownpty, hf, hloop], rfl,
      ?_, ?_, rfl, rfl, fun _ => rfl⟩
    · rcases env.waitpid n with w | e
      · simp only [helperSucceeded]
        split <;> simp
      · simp [helperSucceeded]
    · rcases hw : env.waitpid n with w | e
      · simp only [helperSucceeded]
        constructor
        · intro h
          refine ⟨⟨pid, rfl⟩, w, rfl, ?_⟩
          by_cases hc : (WIFEXITED w && WEXITSTATUS w == 0) = true
          · simpa using hc
          · simp [hc] at h
        · rintro ⟨_, w1, hw1, h1, h2⟩
          cases hw1
          simp [h1, h2]
      · simp [helperSucceeded]

theorem chownpty_parent_result_witness :
    ∃ (run : ChownRun) (v : Int),
      chownpty interruptedHelperEnv 3 5 false handlerAction = some run
      ∧ run.outcome = .returned v
      ∧ (v = 0 ∨ v = 1)
      ∧ (v = 1 ↔ (∃ pid, interruptedHelperEnv.fork = .parent pid)
                  ∧ ∃ w, interruptedHelperEnv.waitpid 2 = .reaped w
                      ∧ WIFEXITED w = true ∧ WEXITSTATUS w = 0)
      ∧ run.sigchld = handlerAction
      ∧ run.installed.getLast? = some handlerAction
      ∧ ((∃ pid, interruptedHelperEnv.fork = .parent pid) → run.nWait = 2 + 1) :=
  chownpty_parent_result interruptedHelperEnv 5 false handlerAction 2 3
    (by decide) (by intro i hi; interval_cases i <;> rfl) (by decide) (by decide)

/-! ### `commClose` is not guarded -/

/-- C10 (as stated) fails: with the needs-grant flag set, a second `commClose`
is no no-op: it runs the de-registration and the revoke helper again. -/
theorem commClose_second_call_repeats :
    (commClose utempterConfig none (commClose utempterConfig none (freshState 5)).1).2
      = [.utempter 5 ["-d", ""], .chownpty 5 false, .KProcess_commClose] := by
  decide

/-- C10 (as amended): `commClose` changes no member of the object, so two
calls leave the same member state as one; the second call is no no-op but
does again what a first call does: the accounting de-registration that is
compiled in, the revoke helper exactly when the needs-grant flag is set, and
`KProcess::commClose()`. -/
theorem commClose_twice (cfg : Config) (tty0 tty1 : Option String) (p : State) :
    (commClose cfg tty0 p).1 = p
    ∧ (commClose cfg tty1 (commClose cfg tty0 p).1).1 = (commClose cfg tty0 p).1
    ∧ (commClose cfg tty1 (commClose cfg tty0 p).1).2 = (commClose cfg tty1 p).2
    ∧ (CloseEvent.chownpty p.m_MasterFd false
          ∈ (commClose cfg tty1 (commClose cfg tty0 p).1).2 ↔ p.m_bNeedGrantPty = true)
    ∧ (cfg.HAVE_UTEMPTER = true →
        CloseEvent.utempter p.m_MasterFd ["-d", p.ttynam]
          ∈ (commClose cfg tty1 (commClose cfg tty0 p).1).2)
    ∧ CloseEvent.KProcess_commClose ∈ (commClose cfg tty1 (commClose cfg tty0 p).1).2 := by
  have h1 : (commClose cfg tty0 p).1 = p := rfl
  refine ⟨h1, rfl, by rw [h1], ?_, ?_, ?_⟩
  · rw [h1]
    unfold commClose
    by_cases hg : p.m_bNeedGrantPty = true
    · simp [hg]
    · simp only [hg, if_false, List.append_nil, List.mem_append, List.mem_singleton,
        or_false, iff_false, reduceCtorEq]
      intro hmem
      split at hmem
      · simp at hmem
      · split at hmem
        · split at hmem <;> simp at hmem
        · simp at hmem
  · intro hu
    rw [h1]
    simp [commClose, hu]
  · rw [h1]
    simp [commClose]

/-! ### `setWriteable` -/

theorem testBit_writeBits (i : Nat) :
    Nat.testBit (S_IWGRP ||| S_IWOTH) i = (decide (i = 4) || decide (i = 1)) := by
  rw [show S_IWGRP ||| S_IWOTH = 2 ^ 4 ||| 2 ^ 1 by decide, Nat.testBit_or,
    Nat.testBit_two_pow, Nat.testBit_two_pow]
  simp [eq_comm]

theorem testBit_S_IWGRP (i : Nat) : Nat.testBit S_IWGRP i = decide (i = 4) := by
  rw [show S_IWGRP = 2 ^ 4 by decide, Nat.testBit_two_pow]
  simp [eq_comm]

theorem testBit_S_IWOTH (i : Nat) : Nat.testBit S_IWOTH i = decide (i = 1) := by
  rw [show S_IWOTH = 2 ^ 1 by decide, Nat.testBit_two_pow]
  simp [eq_comm]

theorem testBit_bitNot32 (x i : Nat) :
    Nat.testBit (bitNot32 x) i = (decide (i < 32) ^^ Nat.testBit x i) := by
  rw [bitNot32, show (0xFFFFFFFF : Nat) = 2 ^ 32 - 1 by decide, Nat.testBit_xor,
    Nat.testBit_two_pow_sub_one]

theorem testBit_sysChmod (path : String) (mode : Nat) (fs : FileModes) (i : Nat) :
    Nat.testBit (sysChmod path mode fs path) i
      = if i < 12 then Nat.testBit mode i else Nat.testBit (fs path) i := by
  simp only [sysChmod, if_true, Nat.testBit_or, Nat.testBit_and, Nat.testBit_shiftLeft,
    Nat.testBit_shiftRight, show (0o7777 : Nat) = 2 ^ 12 - 1 by decide,
    Nat.testBit_two_pow_sub_one]
  by_cases h : i < 12
  · have h1 : ¬ i ≥ 12 := by omega
    simp [h, h1]
  · have h1 : i ≥ 12 := by omega
    have h2 : 12 + (i - 12) = i := by omega
    simp [h, h1, h2]

theorem testBit_setWriteable_true (p : State) (fs : FileModes) (i : Nat) :
    Nat.testBit (setWriteable true p fs (deviceName p)) i
      = (Nat.testBit (fs (deviceName p)) i || decide (i = 4)) := by
  simp only [setWriteable, if_true, testBit_sysChmod, Nat.testBit_or, testBit_S_IWGRP]
  by_cases h : i < 12
  · simp [h]
  · have : i ≠ 4 := by omega
    simp [h, this]

theorem testBit_setWriteable_false (p : State) (fs : FileModes) (i : Nat) :
    Nat.testBit (setWriteable false p fs (deviceName p)) i
      = (Nat.testBit (fs (deviceName p)) i && !(decide (i = 4) || decide (i = 1))) := by
  simp only [setWriteable, Bool.false_eq_true, if_false, testBit_sysChmod, Nat.testBit_and,
    testBit_bitNot32, testBit_writeBits]
  by_cases h : i < 12
  · have h32 : i < 32 := by omega
    simp [h, h32]
  · have h4 : i ≠ 4 := by omega
    have h1 : i ≠ 1 := by omega
    simp [h, h4, h1]

theorem land_S_IWGRP_eq_zero (x : Nat) : x &&& S_IWGRP = 0 ↔ x.testBit 4 = false := by
  constructor
  · intro h
    have h1 := congrArg (fun y => Nat.testBit y 4) h
    simpa [Nat.testBit_and, testBit_S_IWGRP] using h1
  · intro h
    apply Nat.eq_of_testBit_eq
    intro i
    by_cases hi : i = 4
    · subst hi
      simp [Nat.testBit_and, h]
    · simp [Nat.testBit_and, testBit_S_IWGRP, hi]

theorem land_S_IWOTH_eq_zero (x : Nat) : x &&& S_IWOTH = 0 ↔ x.testBit 1 = false := by
  constructor
  · intro h
    have h1 := congrArg (fun y => Nat.testBit y 1) h
    simpa [Nat.testBit_and, testBit_S_IWOTH] using h1
  · intro h
    apply Nat.eq_of_testBit_eq
    intro i
    by_cases hi : i = 1
    · subst hi
      simp [Nat.testBit_and, h]
    · simp [Nat.testBit_and, testBit_S_IWOTH, hi]

theorem setWriteable_deviceName (w : Bool) (p : State) (fs : FileModes) (q : String)
    (hq : q ≠ deviceName p) : setWriteable w p fs q = fs q := by
  cases w <;> simp [setWriteable, sysChmod, hq]

/-- C11: for every mode `m` the subordinate device has, `setWriteable(true)`
followed by `setWriteable(false)` leaves the device with a mode that has
neither the group-write nor the other-write bit and whose other bits are
those of `m`, so it is `m` again when `m` had neither bit; the modes of all
other files stay as they are; and `setWriteable(false)` is idempotent. -/
theorem setWriteable_grant_then_revoke (p : State) (fs : FileModes) :
    setWriteable false p (setWriteable true p fs) (deviceName p) &&& S_IWGRP = 0
    ∧ setWriteable false p (setWriteable true p fs) (deviceName p) &&& S_IWOTH = 0
    ∧ (∀ i, S_IWGRP.testBit i = false → S_IWOTH.testBit i = false →
        (setWriteable false p (setWriteable true p fs) (deviceName p)).testBit i
          = (fs (deviceName p)).testBit i)
    ∧ (fs (deviceName p) &&& S_IWGRP = 0 → fs (deviceName p) &&& S_IWOTH = 0 →
        setWriteable false p (setWriteable true p fs) (deviceName p) = fs (deviceName p))
    ∧ (∀ q, q ≠ deviceName p → setWriteable false p (setWriteable true p fs) q = fs q)
    ∧ setWriteable false p (setWriteable false p fs) = setWriteable false p fs := by
  have hbit : ∀ i, (setWriteable false p (setWriteable true p fs) (deviceName p)).testBit i
      = ((fs (deviceName p)).testBit i && !(decide (i = 4) || decide (i = 1))) := by
    intro i
    rw [testBit_setWriteable_false, testBit_setWriteable_true]
    by_cases h4 : i = 4 <;> by_cases h1 : i = 1 <;> simp [h4, h1]
  refine ⟨?_, ?_, ?_, ?_, ?_, ?_⟩
  · rw [land_S_IWGRP_eq_zero, hbit]
    simp
  · rw [land_S_IWOTH_eq_zero, hbit]
    simp
  · intro i h4 h1
    rw [testBit_S_IWGRP] at h4
    rw [testBit_S_IWOTH] at h1
    rw [hbit]
    simp only [decide_eq_false_iff_not] at h4 h1
    simp [h4, h1]
  · intro hg ho
    rw [land_S_IWGRP_eq_zero] at hg
    rw [land_S_IWOTH_eq_zero] at ho
    apply Nat.eq_of_testBit_eq
    intro i
    rw [hbit]
    by_cases h4 : i = 4
    · subst h4; simp [hg]
    · by_cases h1 : i = 1
      · subst h1; simp [ho]
      · simp [h4, h1]
  · intro q hq
    rw [setWriteable_deviceName false p _ q hq, setWriteable_deviceName true p _ q hq]
  · funext q
    by_cases hq : q = deviceName p
    · subst hq
      apply Nat.eq_of_testBit_eq
      intro i
      rw [testBit_setWriteable_false, testBit_setWriteable_false]
      by_cases h4 : i = 4 <;> by_cases h1 : i = 1 <;> simp [h4, h1]
    · rw [setWriteable_deviceName false p _ q hq]

/-! ### The immediate-write loop terminates -/

theorem sendLoop_returns (o : WriteOracle) (hgood : o.FailsOrAccepts) (p : State) :
    ∀ (fuel : Nat) (s : List Byte) (k : Kernel),
      max s.length 1 ≤ fuel →
      ∃ p1 k1, sendLoop o fuel s (p, k) = some (p1, k1)
        ∧ k.nWrites < k1.nWrites
        ∧ k1.nWrites ≤ k.nWrites + max s.length 1 := by
  intro fuel
  induction fuel with
  | zero => intro s k h; omega
  | succ fuel ih =>
    intro s k hfuel
    have hg := hgood k.nWrites s.length
    rcases ho : o k.nWrites s.length with n | e
    · rw [ho] at hg
      obtain ⟨hn1, hn2⟩ : 1 ≤ n ∧ n ≤ s.length := hg
      by_cases hz : (s.length : Int) - n > 0
      · obtain ⟨p1, k1, h1, h2, h3⟩ :=
          ih (s.drop n) { wire := k.wire ++ s.take n, nWrites := k.nWrites + 1 }
            (by simp only [List.length_drop]; omega)
        refine ⟨p1, k1, ?_, ?_, ?_⟩
        · simp only [sendLoop, ho, hz, if_true]
          exact h1
        · simp only at h2; omega
        · simp only [List.length_drop] at h3; omega
      · refine ⟨p, { wire := k.wire ++ s.take n, nWrites := k.nWrites + 1 }, ?_, ?_, ?_⟩
        · simp only [sendLoop, ho, hz, if_false]
        · simp
        · simp only; omega
    · by_cases he : e = .EAGAIN ∨ e = .EINTR
      · refine ⟨appendSendJob p s, { k with nWrites := k.nWrites + 1 }, ?_, ?_, ?_⟩
        · simp only [sendLoop, ho, he, if_true]
        · simp
        · simp only; omega
      · refine ⟨p, { k with nWrites := k.nWrites + 1 }, ?_, ?_, ?_⟩
        · simp only [sendLoop, ho, he, if_false]
        · simp
        · simp only; omega

theorem sendLoop_zero_step (o : WriteOracle) (p : State) (s : List Byte) (k : Kernel)
    (fuel : Nat) (hzero : o k.nWrites s.length = .written 0) (hs : 0 < s.length) :
    sendLoop o (fuel + 1) s (p, k)
      = sendLoop o fuel s (p, { wire := k.wire, nWrites := k.nWrites + 1 }) := by
  have hz : (s.length : Int) - ((0 : Nat) : Int) > 0 := by omega
  simp only [sendLoop, hzero, hz, if_true, List.take_zero, List.append_nil, List.drop_zero]

theorem sendLoop_zero_never_returns (o : WriteOracle) (p : State) (s : List Byte)
    (hzero : ∀ i, o i s.length = .written 0) (hs : 0 < s.length) :
    ∀ (fuel : Nat) (k : Kernel), sendLoop o fuel s (p, k) = none := by
  intro fuel
  induction fuel with
  | zero => intro k; rfl
  | succ fuel ih =>
    intro k
    rw [sendLoop_zero_step o p s k fuel (hzero k.nWrites) hs]
    exact ih _

/-- C13: the immediate-write loop of `send_bytes`, for a buffer of any length
`len >= 0`.  If every write fails or accepts at least one and at most the
offered number of bytes, the loop returns, after at least one and at most
`max(len, 1)` writes (fuel for that many writes is enough).  If the writes
return 0 while bytes remain, an iteration changes nothing but the count of
writes (same buffer, same object, nothing on the line) and the loop does not
return, whatever the fuel. -/
theorem sendLoop_terminates (o : WriteOracle) (s : List Byte) (p : State) (k : Kernel) :
    (o.FailsOrAccepts → ∀ fuel, max s.length 1 ≤ fuel →
      ∃ p1 k1, sendLoop o fuel s (p, k) = some (p1, k1)
        ∧ k.nWrites < k1.nWrites
        ∧ k1.nWrites ≤ k.nWrites + max s.length 1)
    ∧ ((∀ i, o i s.length = .written 0) → 0 < s.length →
        (∀ fuel, sendLoop o (fuel + 1) s (p, k)
            = sendLoop o fuel s (p, { wire := k.wire, nWrites := k.nWrites + 1 }))
        ∧ ∀ fuel, sendLoop o fuel s (p, k) = none) := by
  refine ⟨fun hgood fuel hfuel => sendLoop_returns o hgood p fuel s k hfuel, ?_⟩
  intro hzero hs
  exact ⟨fun fuel => sendLoop_zero_step o p s k fuel (hzero k.nWrites) hs,
    fun fuel => sendLoop_zero_never_returns o p s hzero hs fuel k⟩

theorem oneByteOracle_failsOrAccepts : oneByteOracle.FailsOrAccepts := by
  intro i len
  unfold oneByteOracle
  by_cases h : len = 0
  · simp [h]
  · simp only [h, if_false]
    omega

theorem sendLoop_terminates_witness :
    (∃ p1 k1, sendLoop oneByteOracle 3 [1, 2, 3] (freshState 5, ⟨[], 0⟩) = some (p1, k1)
        ∧ 0 < k1.nWrites ∧ k1.nWrites ≤ 0 + max [1, 2, 3].length 1)
    ∧ (∃ p1 k1, sendLoop oneByteOracle 1 [] (freshState 5, ⟨[], 0⟩) = some (p1, k1)
        ∧ 0 < k1.nWrites ∧ k1.nWrites ≤ 0 + max ([] : List Byte).length 1)
    ∧ ∀ fuel, sendLoop zeroOracle fuel [1, 2, 3] (freshState 5, ⟨[], 0⟩) = none :=
  ⟨(sendLoop_terminates oneByteOracle [1, 2, 3] (freshState 5) ⟨[], 0⟩).1
      oneByteOracle_failsOrAccepts 3 (by decide),
   (sendLoop_terminates oneByteOracle [] (freshState 5) ⟨[], 0⟩).1
      oneByteOracle_failsOrAccepts 1 (by decide),
   ((sendLoop_terminates zeroOracle [1, 2, 3] (freshState 5) ⟨[], 0⟩).2
      (fun _ => rfl) (by decide)).2⟩

/-! ### The descriptors of the child -/

/-- C12 fails for a master descriptor 1 (a process started without standard
output), which `setupCommunication` accepts: `dup2(tt, 1)` puts the
subordinate device on descriptor 1 and `close(m_MasterFd)` then closes it, so
the child is left with descriptors 0 and 2 on the subordinate device and
descriptor 1 closed. -/
theorem startPgm_closes_stdout_when_master_is_1 :
    setupCommunication (freshState 1) = 1
    ∧ stdoutlessTable 1 = some .master
    ∧ stdoutlessTable 5 = some .slave
    ∧ startPgmFds 16 true 5 (freshState 1) stdoutlessTable 0 = some .slave
    ∧ startPgmFds 16 true 5 (freshState 1) stdoutlessTable 1 = none
    ∧ startPgmFds 16 true 5 (freshState 1) stdoutlessTable 2 = some .slave := by
  decide

theorem closeOthers_apply (tt master : Int) :
    ∀ (n i : Nat) (t : FdTable) (j : Nat),
      closeOthers tt master n i t j
        = if i ≤ j ∧ j < i + n ∧ (j : Int) ≠ tt ∧ (j : Int) ≠ master then none else t j := by
  intro n
  induction n with
  | zero =>
    intro i t j
    have : ¬ (i ≤ j ∧ j < i + 0 ∧ (j : Int) ≠ tt ∧ (j : Int) ≠ master) := by omega
    simp only [closeOthers, this, if_false]
  | succ n ih =>
    intro i t j
    rw [closeOthers, ih]
    by_cases hc : (i : Int) ≠ tt ∧ (i : Int) ≠ master
    · rw [if_pos hc]
      have hneg : ¬ ((i : Int) < 0) := by omega
      simp only [fdClose, FdTable.set, Int.toNat_ofNat, hneg, if_false]
      by_cases hji : j = i
      · subst hji
        have h1 : ¬ (j + 1 ≤ j ∧ j < j + 1 + n ∧ (j : Int) ≠ tt ∧ (j : Int) ≠ master) := by omega
        have h2 : j ≤ j ∧ j < j + (n + 1) ∧ (j : Int) ≠ tt ∧ (j : Int) ≠ master :=
          ⟨le_refl j, by omega, hc.1, hc.2⟩
        rw [if_neg h1, if_pos h2]
        simp
      · rw [if_neg hji]
        by_cases h : i + 1 ≤ j ∧ j < i + 1 + n ∧ (j : Int) ≠ tt ∧ (j : Int) ≠ master
        · have h2 : i ≤ j ∧ j < i + (n + 1) ∧ (j : Int) ≠ tt ∧ (j : Int) ≠ master :=
            ⟨by omega, by omega, h.2.2.1, h.2.2.2⟩
          rw [if_pos h, if_pos h2]
        · have h2 : ¬ (i ≤ j ∧ j < i + (n + 1) ∧ (j : Int) ≠ tt ∧ (j : Int) ≠ master) := by
            intro h3
            exact h ⟨by omega, by omega, h3.2.2.1, h3.2.2.2⟩
          rw [if_neg h, if_neg h2]
    · rw [if_neg hc]
      by_cases h : i + 1 ≤ j ∧ j < i + 1 + n ∧ (j : Int) ≠ tt ∧ (j : Int) ≠ master
      · have h2 : i ≤ j ∧ j < i + (n + 1) ∧ (j : Int) ≠ tt ∧ (j : Int) ≠ master :=
          ⟨by omega, by omega, h.2.2.1, h.2.2.2⟩
        rw [if_pos h, if_pos h2]
      · have h2 : ¬ (i ≤ j ∧ j < i + (n + 1) ∧ (j : Int) ≠ tt ∧ (j : Int) ≠ master) := by
          intro h3
          apply h
          refine ⟨?_, by omega, h3.2.2.1, h3.2.2.2⟩
          by_contra hlt
          have hji : j = i := by omega
          subst hji
          exact hc ⟨h3.2.2.1, h3.2.2.2⟩
        rw [if_neg h, if_neg h2]

theorem lowestFree_free (limit : Nat) (t : FdTable) (fd : Nat)
    (h : lowestFree limit t = some fd) : t fd = none := by
  have := List.find?_some h
  simpa using this

theorem reopenTty_same (limit : Nat) (openOk : Bool) (t : FdTable) :
    reopenTty limit openOk t = t := by
  unfold reopenTty
  split
  · rename_i fd hfd
    have hfree : t fd = none := by
      cases openOk
      · simp at hfd
      · simp only [if_true] at hfd
        exact lowestFree_free limit t fd hfd
    funext j
    have hneg : ¬ ((fd : Int) < 0) := by omega
    simp only [fdClose, hneg, if_false, FdTable.set, Int.toNat_ofNat]
    by_cases hj : j = fd
    · simp [hj, hfree]
    · simp [hj]
  · rfl

theorem fdDup2_slave (limit : Nat) (a newfd : Nat) (t : FdTable)
    (hopen : t a = some .slave) (hlim : newfd < limit) :
    fdDup2 limit (a : Int) newfd t = t.set newfd (some .slave) := by
  have hneg : ¬ ((a : Int) < 0) := by omega
  have hl : ¬ limit ≤ newfd := by omega
  simp only [fdDup2, hneg, if_false, Int.toNat_ofNat, hopen, hl]

theorem startPgmFds_apply (limit : Nat) (openOk : Bool) (a m : Nat) (p : State) (t : FdTable)
    (hp : p.m_MasterFd = (m : Int)) (hlim : 3 ≤ limit)
    (hopen : t a = some .slave) (j : Nat) :
    startPgmFds limit openOk (a : Int) p t j
      = if j = m then none
        else if j ≤ 2 then some .slave
        else if j = a then none
        else if j < limit then none
        else t j := by
  have h1 : ∀ i, closeOthers (a : Int) (m : Int) limit 0 t i
      = if i < limit ∧ i ≠ a ∧ i ≠ m then none else t i := by
    intro i
    rw [closeOthers_apply]
    by_cases h : i < limit ∧ i ≠ a ∧ i ≠ m
    · have h2 : 0 ≤ i ∧ i < 0 + limit ∧ (i : Int) ≠ (a : Int) ∧ (i : Int) ≠ (m : Int) :=
        ⟨by omega, by omega, by omega, by omega⟩
      rw [if_pos h, if_pos h2]
    · have h2 : ¬ (0 ≤ i ∧ i < 0 + limit ∧ (i : Int) ≠ (a : Int) ∧ (i : Int) ≠ (m : Int)) := by
        intro h3
        exact h ⟨by omega, by omega, by omega⟩
      rw [if_neg h, if_neg h2]
  have ha1 : closeOthers (a : Int) (m : Int) limit 0 t a = some .slave := by
    rw [h1]
    simp [hopen]
  have d0 := fdDup2_slave limit a 0 (closeOthers (a : Int) (m : Int) limit 0 t) ha1 (by omega)
  have ha2 : ((closeOthers (a : Int) (m : Int) limit 0 t).set 0 (some .slave)) a
      = some .slave := by
    simp only [FdTable.set]
    split
    · rfl
    · exact ha1
  have d1 := fdDup2_slave limit a 1 _ ha2 (by omega)
  have ha3 : (((closeOthers (a : Int) (m : Int) limit 0 t).set 0 (some .slave)).set 1
      (some .slave)) a = some .slave := by
    simp only [FdTable.set]
    split
    · rfl
    · split
      · rfl
      · exact ha1
  have d2 := fdDup2_slave limit a 2 _ ha3 (by omega)
  have hmneg : ¬ ((m : Int) < 0) := by omega
  have haneg : ¬ ((a : Int) < 0) := by omega
  simp only [startPgmFds, hp, reopenTty_same, d0, d1, d2]
  by_cases ha : (a : Int) > 2
  · simp only [ha, if_true, fdClose, hmneg, haneg, if_false, Int.toNat_ofNat, FdTable.set, h1]
    by_cases hjm : j = m
    · simp [hjm]
    · by_cases hj2 : j ≤ 2
      · have : j ≠ a := by omega
        simp only [hjm, hj2, this, if_false, if_true]
        have h012 : j = 0 ∨ j = 1 ∨ j = 2 := by omega
        rcases h012 with h | h | h <;> simp [h]
      · have e2 : j ≠ 2 := by omega
        have e1 : j ≠ 1 := by omega
        have e0 : j ≠ 0 := by omega
        simp only [hjm, hj2, e2, e1, e0, if_false]
        by_cases hja : j = a
        · simp [hja]
        · by_cases hl : j < limit <;> simp [hja, hl, hjm]
  · simp only [ha, if_false, fdClose, hmneg, Int.toNat_ofNat, FdTable.set, h1]
    have ha2 : a ≤ 2 := by omega
    by_cases hjm : j = m
    · simp [hjm]
    · by_cases hj2 : j ≤ 2
      · simp only [hjm, hj2, if_false, if_true]
        have h012 : j = 0 ∨ j = 1 ∨ j = 2 := by omega
        rcases h012 with h | h | h <;> simp [h]
      · have e2 : j ≠ 2 := by omega
        have e1 : j ≠ 1 := by omega
        have e0 : j ≠ 0 := by omega
        have hja : j ≠ a := by omega
        simp only [hjm, hj2, e2, e1, e0, hja, if_false]
        by_cases hl : j < limit <;> simp [hl, hja, hjm]

/-- The descriptor steps of `startPgm` reach their aim when the master
descriptor is above 2: with the limit at least 3 and `tt` open on the
subordinate device, descriptors 0, 1 and 2 end up on the subordinate device,
every other descriptor below the limit is closed, and so is the master. -/
theorem startPgmFds_master_above_2 (limit : Nat) (openOk : Bool) (tt : Int) (p : State)
    (t : FdTable) (hm : 2 < p.m_MasterFd) (htt : 0 ≤ tt)
    (hlim : 3 ≤ limit) (hopen : t tt.toNat = some .slave) :
    startPgmFds limit openOk tt p t 0 = some .slave
    ∧ startPgmFds limit openOk tt p t 1 = some .slave
    ∧ startPgmFds limit openOk tt p t 2 = some .slave
    ∧ (∀ i, 2 < i → i < limit → startPgmFds limit openOk tt p t i = none)
    ∧ startPgmFds limit openOk tt p t p.m_MasterFd.toNat = none := by
  obtain ⟨a, rfl⟩ := Int.eq_ofNat_of_zero_le htt
  obtain ⟨m, hp⟩ := Int.eq_ofNat_of_zero_le (show 0 ≤ p.m_MasterFd by omega)
  have hm2 : 2 < m := by omega
  simp only [Int.toNat_ofNat] at hopen
  have key := startPgmFds_apply limit openOk a m p t hp hlim hopen
  refine ⟨?_, ?_, ?_, ?_, ?_⟩
  · rw [key]
    have : (0 : Nat) ≠ m := by omega
    simp [this]
  · rw [key]
    have : (1 : Nat) ≠ m := by omega
    simp [this]
  · rw [key]
    have : (2 : Nat) ≠ m := by omega
    simp [this]
  · intro i h2 hl
    rw [key]
    have : ¬ i ≤ 2 := by omega
    simp [this, hl]
  · rw [key, hp]
    simp

theorem startPgmFds_master_above_2_example :
    startPgmFds 16 true 5 (freshState 3) usualTable 0 = some .slave
    ∧ startPgmFds 16 true 5 (freshState 3) usualTable 1 = some .slave
    ∧ startPgmFds 16 true 5 (freshState 3) usualTable 2 = some .slave
    ∧ (∀ i, 2 < i → i < 16 → startPgmFds 16 true 5 (freshState 3) usualTable i = none)
    ∧ startPgmFds 16 true 5 (freshState 3) usualTable (freshState 3).m_MasterFd.toNat = none :=
  startPgmFds_master_above_2 16 true 5 (freshState 3) usualTable (by decide) (by decide)
    (by decide) (by decide)

end TEPty
